import Mathlib

/-!
# Grid mesh primitive node (`node_geo_mesh_primitive_grid.cc`)

A shallow embedding of the pivot-offset computation and of the vertex
translation pass of the grid node, followed by the properties the
specification states about them.

The C++ type `float` is embedded as `F32`: IEEE-754 binary32 with
round-to-nearest, ties-to-even, and a single NaN.  A finite value is a sign
and the 31 low bits of its encoding (biased exponent and fraction), so every
inhabitant of `F32` is a float and equality of `F32` is equality of encodings
(all NaNs identified).  The C++ type `int` is embedded as `Int`; the only
integer operation of the file is the comparison `< 1`.
-/

/-- Single-precision float: NaN, an infinity, or a finite value given by its
sign and the exponent and fraction bits of its encoding. -/
inductive F32
  | nan
  | inf (sign : Bool)
  | fin (sign : Bool) (bits : Fin 0x7F800000)
deriving DecidableEq

namespace F32

/-- Auxiliary loop of `bitLength`. -/
def bitLengthAux : Nat → Nat → Nat
  | 0, _ => 0
  | fuel + 1, n => if n = 0 then 0 else bitLengthAux fuel (n / 2) + 1

/-- Number of binary digits of `n` (0 for 0). -/
def bitLength (n : Nat) : Nat := bitLengthAux n n

/-- Magnitude of the finite float with exponent and fraction bits `b`, in
units of `2^-149` (the smallest subnormal): biased exponent `E = b / 2^23`,
fraction `M = b % 2^23`; subnormal `M`, normal `(2^23 + M) * 2^(E - 1)`. -/
def mag (b : Nat) : Nat :=
  if b / 2 ^ 23 = 0 then b % 2 ^ 23 else (2 ^ 23 + b % 2 ^ 23) * 2 ^ (b / 2 ^ 23 - 1)

/-- Round the exact magnitude `n / 2^k` (in units of `2^-149`) to the nearest
representable magnitude, ties to even, and return its exponent and fraction
bits.  `d` low bits of `n` are dropped: as many as it takes to keep 24
significant bits, and at least `k`.  A result of `0x7F800000` or more is an
overflow. -/
def roundBits (n k : Nat) : Nat :=
  let d := max (bitLength n - 24) k
  let q := n >>> d
  let r := n - (q <<< d)
  let q' := if 1 <<< d < 2 * r ∨ (2 * r = 1 <<< d ∧ q % 2 = 1) then q + 1 else q
  (d - k) * 2 ^ 23 + q'

/-- The float of sign `sign` nearest to the exact magnitude `n / 2^k` (units
of `2^-149`); infinity on overflow. -/
def ofMag (sign : Bool) (n k : Nat) : F32 :=
  if h : roundBits n k < 0x7F800000 then fin sign ⟨roundBits n k, h⟩ else inf sign

/-- The literal `0.0f`, also the value of the integer `0` converted to `float`. -/
def zero : F32 := fin false ⟨0, by decide⟩

/-- The literal `0.5f`. -/
def half : F32 := fin false ⟨0x3F000000, by decide⟩

/-- The literal `1.0f`. -/
def one : F32 := fin false ⟨0x3F800000, by decide⟩

/-- The literal `2.0f`. -/
def two : F32 := fin false ⟨0x40000000, by decide⟩

/-- The literal `4.0f`. -/
def four : F32 := fin false ⟨0x40800000, by decide⟩

/-- Unary minus: flips the sign bit. -/
def neg : F32 → F32
  | nan => nan
  | inf s => inf (!s)
  | fin s b => fin (!s) b

/-- Value of a finite float in units of `2^-149`, as a signed integer
(0 for NaN and the infinities). -/
def scaled : F32 → Int
  | fin s b => if s then -(mag b.val : Int) else (mag b.val : Int)
  | _ => 0

/-- Whether the float is neither NaN nor an infinity. -/
def isFinite : F32 → Bool
  | fin _ _ => true
  | _ => false

/-- Exact value of a finite float as a rational number (0 for NaN and the
infinities). -/
def toRat (x : F32) : ℚ := (scaled x : ℚ) / 2 ^ 149

/-- The operator `*` of `float`. -/
def mul : F32 → F32 → F32
  | nan, _ => nan
  | _, nan => nan
  | inf s, inf t => inf (xor s t)
  | inf s, fin t b => if b.val = 0 then nan else inf (xor s t)
  | fin s a, inf t => if a.val = 0 then nan else inf (xor s t)
  | fin s a, fin t b => ofMag (xor s t) (mag a.val * mag b.val) 149

/-- The operator `+` of `float`.  An exact sum of zero is `-0` only when both
operands are negative. -/
def add : F32 → F32 → F32
  | nan, _ => nan
  | _, nan => nan
  | inf s, inf t => if s = t then inf s else nan
  | inf s, fin _ _ => inf s
  | fin _ _, inf t => inf t
  | fin s a, fin t b =>
    let v := scaled (fin s a) + scaled (fin t b)
    if v = 0 then fin (s && t) ⟨0, by decide⟩ else ofMag (decide (v < 0)) v.natAbs 0

/-- The operator `-` of `float`: `x - y` is `x + (-y)`. -/
def sub (x y : F32) : F32 := add x (neg y)

/-- The operator `/` of `float`.  The quotient of the magnitudes is taken to
`173 + bitLength (mag b)` binary places, the last place is doubled and its low
bit records whether the division left a remainder, and the result is
rounded. -/
def div : F32 → F32 → F32
  | nan, _ => nan
  | _, nan => nan
  | inf _, inf _ => nan
  | inf s, fin t _ => inf (xor s t)
  | fin s _, inf t => fin (xor s t) ⟨0, by decide⟩
  | fin s a, fin t b =>
    if b.val = 0 then (if a.val = 0 then nan else inf (xor s t))
    else
      let K := 173 + bitLength (mag b.val)
      let p := mag a.val <<< K
      let n := p / mag b.val
      let sticky := if p % mag b.val = 0 then 0 else 1
      ofMag (xor s t) (2 * n + sticky) (K + 1 - 149)

/-- The operator `<=` of `float`: false when an operand is NaN. -/
def le : F32 → F32 → Bool
  | nan, _ => false
  | _, nan => false
  | inf s, inf t => s || !t
  | inf s, fin _ _ => s
  | fin _ _, inf t => !t
  | fin s a, fin t b => decide (scaled (fin s a) ≤ scaled (fin t b))

end F32

namespace node_geo_mesh_primitive_grid_cc

/-- Two floats (`float2`). -/
structure float2 where
  x : F32
  y : F32
deriving DecidableEq

/-- Three floats (`float3`). -/
structure float3 where
  x : F32
  y : F32
  z : F32
deriving DecidableEq

/-- Center (Default). -/
def GEO_NODE_GRID_PIVOT_CENTER : Int := 0

/-- Corner. -/
def GEO_NODE_GRID_PIVOT_CORNER_FRONT_LEFT : Int := 1

/-- Storage record of the node. -/
structure NodeGeometryMeshGrid where
  pivot : Int
deriving DecidableEq

/-- The `float2(int)` constructor used by `float2(0)`: both components are the
converted integer; only `float2(0)` occurs in the source. -/
def float2_zero : float2 := ⟨F32.zero, F32.zero⟩

/-- `float2 * float`: componentwise product. -/
def float2.scale (v : float2) (s : F32) : float2 := ⟨F32.mul v.x s, F32.mul v.y s⟩

/-- `calculate_pivot_offset`, lines 88-100. -/
def calculate_pivot_offset (pivot : Int) (size : float2) : float2 :=
  let half_size := size.scale F32.half
  if pivot = GEO_NODE_GRID_PIVOT_CENTER then float2_zero
  else if pivot = GEO_NODE_GRID_PIVOT_CORNER_FRONT_LEFT then
    ⟨F32.neg half_size.x, F32.neg half_size.y⟩
  else float2_zero

/-- The part of a `Mesh` this node reads or writes: the vertex position buffer
(`vert_positions_for_write`) and the number of material slots. -/
structure Mesh where
  vert_positions : List float3
  totcol : Nat
deriving DecidableEq

/-- A declared input socket of `node_declare`, lines 39-58. -/
inductive InputDecl
  | Float (name : String) (default_value min : F32)
  | Int (name : String) (default_value min max : Int)
deriving DecidableEq

/-- The input sockets declared by `node_declare`, lines 39-58. -/
def node_declare_inputs : List InputDecl :=
  [ .Float "Size X" F32.one F32.zero,
    .Float "Size Y" F32.one F32.zero,
    .Int "Vertices X" 3 2 1000,
    .Int "Vertices Y" 3 2 1000 ]

/-- The output sockets declared by `node_declare`, lines 59-60. -/
def node_declare_outputs : List String := ["Mesh", "UV Map"]

/-- Whether `v` lies within the declared `min`/`max` of the integer input
socket `name`. -/
def int_in_declared_range (name : String) (v : Int) : Bool :=
  node_declare_inputs.any fun d =>
    match d with
    | .Int n _ lo hi => n == name && decide (lo ≤ v) && decide (v ≤ hi)
    | .Float _ _ _ => false

/-- `node_init`, lines 63-68: the storage a new node starts with. -/
def node_init : NodeGeometryMeshGrid := { pivot := GEO_NODE_GRID_PIVOT_CENTER }

/-- A call the execution callback makes into the host framework. -/
inductive HostCall
  | extract_input (name : String)
  | set_default_remaining_outputs
  | get_output_anonymous_attribute_id_if_needed (name : String)
  | create_grid_mesh (verts_x verts_y : Int) (size_x size_y : F32) (uv_map_id : Option String)
  | BKE_id_material_eval_ensure_default_slot
  | set_output (name : String)
deriving DecidableEq

/-- What an output socket holds after execution. -/
inductive OutputValue
  | unset
  | default_value
  | geometry (mesh : Mesh)
deriving DecidableEq

/-- The collaborators of the execution callback that are not part of this
file: the mesh constructor and the anonymous-attribute service. -/
structure Host where
  create_grid_mesh : Int → Int → F32 → F32 → Option String → Mesh
  uv_map_id_if_needed : Option String

/-- The `GeoNodeExecParams` of one execution: the input values, the node
storage, the outputs set so far, and the log of host calls made so far. -/
structure GeoNodeExecParams where
  size_x : F32
  size_y : F32
  verts_x : Int
  verts_y : Int
  storage : NodeGeometryMeshGrid
  out_mesh : OutputValue := .unset
  out_uv_map : OutputValue := .unset
  calls : List HostCall := []
deriving DecidableEq

/-- Append a host call to the log. -/
def GeoNodeExecParams.log (params : GeoNodeExecParams) (c : HostCall) : GeoNodeExecParams :=
  { params with calls := params.calls ++ [c] }

/-- Modelled from the spec: `set_default_remaining_outputs` of the host
framework, "all declared outputs are set to an implementation-defined default
value"; an output already set keeps its value. -/
def GeoNodeExecParams.set_default_remaining_outputs (params : GeoNodeExecParams) :
    GeoNodeExecParams :=
  { params.log .set_default_remaining_outputs with
    out_mesh := if params.out_mesh = .unset then .default_value else params.out_mesh
    out_uv_map := if params.out_uv_map = .unset then .default_value else params.out_uv_map }

/-- Modelled from the spec: `BKE_id_material_eval_ensure_default_slot` of the
host material utility, "ensure the mesh has at least one material slot",
idempotent; it does not touch the vertex buffer. -/
def BKE_id_material_eval_ensure_default_slot (mesh : Mesh) : Mesh :=
  if mesh.totcol = 0 then { mesh with totcol := 1 } else mesh

/-- The loop of lines 122-125: `pos.x -= pivot_offset.x; pos.y -= pivot_offset.y`
for every position of the buffer, in order. -/
def apply_pivot_offset (pivot_offset : float2) (positions : List float3) : List float3 :=
  positions.map fun pos =>
    { pos with x := F32.sub pos.x pivot_offset.x, y := F32.sub pos.y pivot_offset.y }

/-- `node_geo_exec`, lines 102-130.  The result is the final state of the
parameters: the outputs and the log of host calls. -/
def node_geo_exec (host : Host) (params : GeoNodeExecParams) : GeoNodeExecParams :=
  let size_x := params.size_x
  let params := params.log (.extract_input "Size X")
  let size_y := params.size_y
  let params := params.log (.extract_input "Size Y")
  let verts_x := params.verts_x
  let params := params.log (.extract_input "Vertices X")
  let verts_y := params.verts_y
  let params := params.log (.extract_input "Vertices Y")
  if verts_x < 1 ∨ verts_y < 1 then
    params.set_default_remaining_outputs
  else
    let uv_map_id := host.uv_map_id_if_needed
    let params := params.log (.get_output_anonymous_attribute_id_if_needed "UV Map")
    let storage := params.storage
    let pivot_offset := calculate_pivot_offset storage.pivot ⟨size_x, size_y⟩
    let mesh := host.create_grid_mesh verts_x verts_y size_x size_y uv_map_id
    let params := params.log (.create_grid_mesh verts_x verts_y size_x size_y uv_map_id)
    let mesh := { mesh with vert_positions := apply_pivot_offset pivot_offset mesh.vert_positions }
    let mesh := BKE_id_material_eval_ensure_default_slot mesh
    let params := params.log .BKE_id_material_eval_ensure_default_slot
    { params.log (.set_output "Mesh") with out_mesh := .geometry mesh }

/-- Whether a logged call is a call of `create_grid_mesh`. -/
def HostCall.is_create_grid_mesh : HostCall → Bool
  | .create_grid_mesh _ _ _ _ _ => true
  | _ => false

/-- Whether an output holds a mesh. -/
def OutputValue.is_geometry : OutputValue → Bool
  | .geometry _ => true
  | _ => false

/-- The parameters at the start of an execution: nothing set, nothing logged. -/
def GeoNodeExecParams.start (storage : NodeGeometryMeshGrid) (size_x size_y : F32)
    (verts_x verts_y : Int) : GeoNodeExecParams :=
  { size_x := size_x, size_y := size_y, verts_x := verts_x, verts_y := verts_y,
    storage := storage }

end node_geo_mesh_primitive_grid_cc

/-! ## Arithmetic of `F32`: bit length, magnitudes and rounding -/

namespace F32

theorem bitLengthAux_spec (fuel : Nat) : ∀ n, n ≤ fuel →
    n < 2 ^ bitLengthAux fuel n ∧ (n ≠ 0 → 2 ^ (bitLengthAux fuel n - 1) ≤ n) := by
  induction fuel with
  | zero =>
    intro n hn
    have : n = 0 := by omega
    subst this
    simp [bitLengthAux]
  | succ f ih =>
    intro n hn
    unfold bitLengthAux
    by_cases h0 : n = 0
    · simp [h0]
    · simp only [h0, if_false]
      have hle : n / 2 ≤ f := by omega
      obtain ⟨h1, h2⟩ := ih (n / 2) hle
      constructor
      · rw [pow_succ]; omega
      · intro _
        simp only [Nat.add_sub_cancel]
        by_cases h3 : n / 2 = 0
        · have : bitLengthAux f (n / 2) = 0 := by
            rw [h3]; cases f <;> simp [bitLengthAux]
          rw [this]; simp; omega
        · have h4 := h2 h3
          have h5 : bitLengthAux f (n / 2) ≠ 0 := by
            intro h6
            rw [h6] at h1
            simp at h1
            exact h3 h1
          have : bitLengthAux f (n / 2) = (bitLengthAux f (n / 2) - 1) + 1 := by omega
          rw [this, pow_succ]
          omega

theorem lt_pow_bitLength (n : Nat) : n < 2 ^ bitLength n :=
  (bitLengthAux_spec n n le_rfl).1

theorem pow_bitLength_le (n : Nat) (h : n ≠ 0) : 2 ^ (bitLength n - 1) ≤ n :=
  (bitLengthAux_spec n n le_rfl).2 h

theorem bitLength_zero : bitLength 0 = 0 := rfl

theorem bitLength_le_iff (n m : Nat) : bitLength n ≤ m ↔ n < 2 ^ m := by
  constructor
  · intro h
    exact lt_of_lt_of_le (lt_pow_bitLength n) (Nat.pow_le_pow_right (by norm_num) h)
  · intro h
    by_contra hc
    push_neg at hc
    have h0 : n ≠ 0 := by
      intro h0
      rw [h0, bitLength_zero] at hc
      omega
    have h1 := pow_bitLength_le n h0
    have h2 : 2 ^ m ≤ 2 ^ (bitLength n - 1) := Nat.pow_le_pow_right (by norm_num) (by omega)
    omega

theorem bitLength_eq (n m : Nat) (h1 : 2 ^ m ≤ n) (h2 : n < 2 ^ (m + 1)) :
    bitLength n = m + 1 := by
  have a := (bitLength_le_iff n (m + 1)).2 h2
  have b : ¬ bitLength n ≤ m := fun h => by
    have := (bitLength_le_iff n m).1 h
    omega
  omega

theorem roundBits_eq (n k d : Nat) (hd : d = max (bitLength n - 24) k) :
    roundBits n k =
      (d - k) * 2 ^ 23 +
        (if 2 ^ d < 2 * (n % 2 ^ d) ∨ (2 * (n % 2 ^ d) = 2 ^ d ∧ n / 2 ^ d % 2 = 1)
          then n / 2 ^ d + 1 else n / 2 ^ d) := by
  have hr : n - (n / 2 ^ d) <<< d = n % 2 ^ d := by
    rw [Nat.shiftLeft_eq]
    have := Nat.div_add_mod n (2 ^ d)
    have h2 : 2 ^ d * (n / 2 ^ d) = n / 2 ^ d * 2 ^ d := Nat.mul_comm _ _
    omega
  subst hd
  simp only [roundBits, Nat.shiftRight_eq_div_pow, Nat.one_shiftLeft, hr]

theorem mag_of_lt (b : Nat) (h : b < 2 ^ 24) : mag b = b := by
  unfold mag
  norm_num at h ⊢
  have h1 : b / 8388608 = 0 ∨ b / 8388608 = 1 := by omega
  rcases h1 with h1 | h1
  · simp only [h1, if_true]; omega
  · simp only [h1]; norm_num; omega

theorem mag_encode (E M : Nat) (hM : M < 2 ^ 23) (hE : 1 ≤ E) :
    mag (E * 2 ^ 23 + M) = (2 ^ 23 + M) * 2 ^ (E - 1) := by
  unfold mag
  have h1 : (E * 2 ^ 23 + M) / 2 ^ 23 = E := by
    rw [Nat.add_comm, Nat.add_mul_div_right _ _ (by norm_num : 0 < 2 ^ 23),
      Nat.div_eq_of_lt hM, Nat.zero_add]
  have h2 : (E * 2 ^ 23 + M) % 2 ^ 23 = M := by
    rw [Nat.add_comm, Nat.add_mul_mod_self_right, Nat.mod_eq_of_lt hM]
  rw [h1, h2, if_neg (by omega)]

theorem bits_decompose (b : Nat) :
    b = b / 2 ^ 23 * 2 ^ 23 + b % 2 ^ 23 ∧ b % 2 ^ 23 < 2 ^ 23 := by
  constructor
  · have := Nat.div_add_mod b (2 ^ 23)
    rw [Nat.mul_comm] at this
    exact this.symm
  · exact Nat.mod_lt _ (by norm_num)

theorem roundBits_exact (m e k : Nat) (hm : m < 2 ^ 24) (hk : k ≤ e)
    (hn : e = k ∨ 2 ^ 23 ≤ m) : roundBits (m * 2 ^ e) k = (e - k) * 2 ^ 23 + m := by
  have hpos : 0 < 2 ^ e := by positivity
  have hub : m * 2 ^ e < 2 ^ (24 + e) := by
    rw [pow_add]; exact Nat.mul_lt_mul_of_pos_right hm hpos
  have h1 : bitLength (m * 2 ^ e) ≤ 24 + e := (bitLength_le_iff _ _).2 hub
  have hd : e = max (bitLength (m * 2 ^ e) - 24) k := by
    rcases hn with hn | hn
    · subst hn
      rw [max_eq_right (by omega)]
    · have hlb : 2 ^ (23 + e) ≤ m * 2 ^ e := by
        rw [pow_add]; exact Nat.mul_le_mul_right _ hn
      have := bitLength_eq (m * 2 ^ e) (23 + e) hlb (by
        have : 23 + e + 1 = 24 + e := by omega
        rw [this]; exact hub)
      rw [this, max_eq_left (by omega)]
      omega
  rw [roundBits_eq _ _ e hd, Nat.mul_mod_left, Nat.mul_div_cancel _ hpos]
  have : ¬ (2 ^ e < 2 * 0 ∨ (2 * 0 = 2 ^ e ∧ m % 2 = 1)) := by
    simp only [Nat.mul_zero]
    omega
  rw [if_neg this]

theorem roundBits_mag (b : Nat) : roundBits (mag b) 0 = b := by
  obtain ⟨hb, hM⟩ := bits_decompose b
  by_cases hE : b / 2 ^ 23 = 0
  · have hlt : b < 2 ^ 24 := by rw [hb, hE]; norm_num at hM ⊢; omega
    rw [mag_of_lt b hlt]
    have := roundBits_exact b 0 0 hlt le_rfl (Or.inl rfl)
    simpa using this
  · have h1 : 1 ≤ b / 2 ^ 23 := by omega
    have hm := mag_encode (b / 2 ^ 23) (b % 2 ^ 23) hM h1
    rw [← hb] at hm
    rw [hm, roundBits_exact _ _ 0 (by omega) (Nat.zero_le _) (Or.inr (by omega))]
    have h2 : (b / 2 ^ 23 - 1 - 0) * 2 ^ 23 = b / 2 ^ 23 * 2 ^ 23 - 2 ^ 23 := by
      rw [Nat.sub_zero, Nat.sub_mul, Nat.one_mul]
    have h3 : 2 ^ 23 ≤ b / 2 ^ 23 * 2 ^ 23 := Nat.le_mul_of_pos_left _ h1
    omega

theorem mag_eq_zero_iff (b : Nat) : mag b = 0 ↔ b = 0 := by
  constructor
  · intro h
    have := roundBits_mag b
    rw [h] at this
    rw [← this]
    rfl
  · intro h
    subst h
    rfl

theorem ofMag_mag (s : Bool) (b : Fin 0x7F800000) : ofMag s (mag b.val) 0 = fin s b := by
  unfold ofMag
  have h := roundBits_mag b.val
  have hlt : roundBits (mag b.val) 0 < 0x7F800000 := by rw [h]; exact b.isLt
  rw [dif_pos hlt]
  congr 1
  exact Fin.ext h

theorem add_neg_zero (x : F32) : add x (fin true ⟨0, by decide⟩) = x := by
  cases x with
  | nan => rfl
  | inf s => rfl
  | fin s b =>
    have hz : mag 0 = 0 := rfl
    by_cases hb : b.val = 0
    · have hb2 : b = ⟨0, by decide⟩ := Fin.ext hb
      subst hb2
      cases s <;> rfl
    · have hm : mag b.val ≠ 0 := fun h => hb ((mag_eq_zero_iff _).1 h)
      have hpos : 0 < mag b.val := Nat.pos_of_ne_zero hm
      cases s with
      | false =>
        have hv : scaled (fin false b) + scaled (fin true ⟨0, by decide⟩) = (mag b.val : Int) := by
          simp [scaled, hz]
        simp only [add, hv]
        rw [if_neg (by omega)]
        have : decide ((mag b.val : Int) < 0) = false := by simp
        rw [this, Int.natAbs_ofNat]
        exact ofMag_mag false b
      | true =>
        have hv : scaled (fin true b) + scaled (fin true ⟨0, by decide⟩) = -(mag b.val : Int) := by
          simp [scaled, hz]
        simp only [add, hv]
        rw [if_neg (by omega)]
        have : decide (-(mag b.val : Int) < 0) = true := by simp; omega
        rw [this, Int.natAbs_neg, Int.natAbs_ofNat]
        exact ofMag_mag true b

theorem sub_zero (x : F32) : sub x zero = x := add_neg_zero x

theorem sub_self_of_finite (s : Bool) (b : Fin 0x7F800000) :
    sub (fin s b) (fin s b) = zero := by
  have hv : scaled (fin s b) + scaled (fin (!s) b) = 0 := by
    cases s <;> simp [scaled]
  simp only [sub, neg, add, hv, if_true]
  cases s <;> rfl

theorem roundBits_scale (n k j : Nat) : roundBits (n * 2 ^ j) (k + j) = roundBits n k := by
  by_cases h0 : n = 0
  · subst h0
    have e1 : roundBits (0 * 2 ^ j) (k + j) = 0 := by
      rw [roundBits_eq _ _ (k + j) (by simp [bitLength_zero])]
      simp
    have e2 : roundBits 0 k = 0 := by
      rw [roundBits_eq _ _ k (by simp [bitLength_zero])]
      simp
    rw [e1, e2]
  · have hpos : 0 < 2 ^ j := by positivity
    have hbl : bitLength (n * 2 ^ j) = bitLength n + j := by
      have hn1 := pow_bitLength_le n h0
      have hn2 := lt_pow_bitLength n
      have hb0 : bitLength n ≠ 0 := by
        intro h
        rw [h] at hn2
        simp at hn2
        exact h0 hn2
      have := bitLength_eq (n * 2 ^ j) (bitLength n - 1 + j)
        (by rw [pow_add]; exact Nat.mul_le_mul_right _ hn1)
        (by
          have e : bitLength n - 1 + j + 1 = bitLength n + j := by omega
          rw [e, pow_add]
          exact Nat.mul_lt_mul_of_pos_right hn2 hpos)
      omega
    obtain ⟨d, hd⟩ : ∃ d, d = max (bitLength n - 24) k := ⟨_, rfl⟩
    have hd2 : d + j = max (bitLength (n * 2 ^ j) - 24) (k + j) := by
      rw [hbl, hd]
      by_cases h : bitLength n ≤ 24 + k
      · rw [max_eq_right (by omega), max_eq_right (by omega)]
      · rw [max_eq_left (by omega), max_eq_left (by omega)]
        omega
    have hk : k ≤ d := by rw [hd]; exact le_max_right _ _
    rw [roundBits_eq _ _ _ hd2, roundBits_eq _ _ _ hd]
    have hq : n * 2 ^ j / 2 ^ (d + j) = n / 2 ^ d := by
      rw [pow_add, Nat.mul_div_mul_right _ _ hpos]
    have hr : n * 2 ^ j % 2 ^ (d + j) = n % 2 ^ d * 2 ^ j := by
      rw [pow_add, Nat.mul_mod_mul_right]
    have hs : d + j - (k + j) = d - k := by omega
    rw [hq, hr, hs]
    have c1 : 2 ^ (d + j) < 2 * (n % 2 ^ d * 2 ^ j) ↔ 2 ^ d < 2 * (n % 2 ^ d) := by
      rw [pow_add, ← Nat.mul_assoc]
      exact Nat.mul_lt_mul_right hpos
    have c2 : 2 * (n % 2 ^ d * 2 ^ j) = 2 ^ (d + j) ↔ 2 * (n % 2 ^ d) = 2 ^ d := by
      rw [pow_add, ← Nat.mul_assoc]
      exact Nat.mul_left_inj (by omega)
    simp only [c1, c2]

theorem xor_false_right (s : Bool) : xor s false = s := by cases s <;> rfl

theorem mul_pow_two (s : Bool) (a b : Fin 0x7F800000) (e : Nat) (hb : mag b.val = 2 ^ e) :
    mul (fin s a) (fin false b) = ofMag s (mag a.val * 2 ^ e) 149 := by
  simp only [mul, hb, xor_false_right]

theorem div_pow_two (s : Bool) (a b : Fin 0x7F800000) (e : Nat) (hb : mag b.val = 2 ^ e) :
    div (fin s a) (fin false b) = ofMag s (mag a.val * 2 ^ 175) (e + 26) := by
  have hb0 : b.val ≠ 0 := by
    intro h
    have := (mag_eq_zero_iff b.val).2 h
    rw [hb] at this
    exact absurd this (by positivity)
  have hbl : bitLength (2 ^ e) = e + 1 := bitLength_eq _ e le_rfl
    (Nat.pow_lt_pow_right (by norm_num) (Nat.lt_succ_self e))
  have hpos : 0 < 2 ^ e := by positivity
  have hK : 173 + (e + 1) = 174 + e := by omega
  have h3 : mag a.val <<< (174 + e) / 2 ^ e = mag a.val * 2 ^ 174 := by
    rw [Nat.shiftLeft_eq, pow_add, ← Nat.mul_assoc, Nat.mul_div_cancel _ hpos]
  have h4 : mag a.val <<< (174 + e) % 2 ^ e = 0 := by
    rw [Nat.shiftLeft_eq, pow_add, ← Nat.mul_assoc, Nat.mul_mod_left]
  have h5 : 2 * (mag a.val * 2 ^ 174) + 0 = mag a.val * 2 ^ 175 := by
    rw [Nat.add_zero, Nat.mul_comm 2, Nat.mul_assoc, ← pow_succ]
  have h6 : 174 + e + 1 - 149 = e + 26 := by omega
  simp only [div, hb, hbl, hK, h3, h4, if_neg hb0, if_true, h5, h6, xor_false_right]

theorem mag_half : mag (0x3F000000 : Nat) = 2 ^ 148 :=
  mag_encode 126 0 (by norm_num) (by norm_num)

theorem mag_two : mag (0x40000000 : Nat) = 2 ^ 150 :=
  mag_encode 128 0 (by norm_num) (by norm_num)

theorem mul_half_eq_ofMag (s : Bool) (a : Fin 0x7F800000) :
    mul (fin s a) half = ofMag s (mag a.val) 1 := by
  rw [half, mul_pow_two s a _ 148 mag_half]
  unfold ofMag
  have e3 := roundBits_scale (mag a.val) 1 148
  simp only [show 1 + 148 = 149 by norm_num] at e3
  simp only [e3]

theorem div_two_eq_ofMag (s : Bool) (a : Fin 0x7F800000) :
    div (fin s a) two = ofMag s (mag a.val) 1 := by
  rw [two, div_pow_two s a _ 150 mag_two]
  unfold ofMag
  have e3 := roundBits_scale (mag a.val) 1 175
  simp only [show 1 + 175 = 150 + 26 by norm_num] at e3
  simp only [e3]

theorem mul_half_eq_div_two (w : F32) : mul w half = div w two := by
  cases w with
  | nan => rfl
  | inf s => cases s <;> rfl
  | fin s a => rw [mul_half_eq_ofMag, div_two_eq_ofMag]

theorem roundBits_of_lt (n : Nat) (h : n < 2 ^ 24) : roundBits n 0 = n := by
  have := roundBits_exact n 0 0 h le_rfl (Or.inl rfl)
  simpa using this

theorem roundBits_le_of_le_mag (n b : Nat) (h : n ≤ mag b) : roundBits n 0 ≤ b := by
  by_cases hn : n < 2 ^ 24
  · rw [roundBits_of_lt n hn]
    by_cases hb : b < 2 ^ 24
    · rw [mag_of_lt b hb] at h; exact h
    · omega
  · have hn0 : n ≠ 0 := by
      intro h0; rw [h0] at hn; exact hn (by norm_num)
    have hbl : ¬ bitLength n ≤ 24 := fun hc => hn ((bitLength_le_iff n 24).1 hc)
    obtain ⟨d, hd⟩ : ∃ d, d = bitLength n - 24 := ⟨_, rfl⟩
    have hd1 : 1 ≤ d := by omega
    have hlo : 2 ^ (d + 23) ≤ n := by
      have := pow_bitLength_le n hn0
      rwa [show bitLength n - 1 = d + 23 by omega] at this
    have hhi : n < 2 ^ (d + 24) := by
      have := lt_pow_bitLength n
      rwa [show bitLength n = d + 24 by omega] at this
    have hpos : 0 < 2 ^ d := by positivity
    have hq1 : n / 2 ^ d < 2 ^ 24 := by
      rw [Nat.div_lt_iff_lt_mul hpos, ← pow_add, Nat.add_comm]; exact hhi
    have hmod := Nat.div_add_mod n (2 ^ d)
    have hrlt : n % 2 ^ d < 2 ^ d := Nat.mod_lt _ hpos
    rw [roundBits_eq n 0 d (by rw [hd]; simp)]
    obtain ⟨hb, hM⟩ := bits_decompose b
    obtain ⟨E, hE⟩ : ∃ E, E = b / 2 ^ 23 := ⟨_, rfl⟩
    obtain ⟨M, hMd⟩ : ∃ M, M = b % 2 ^ 23 := ⟨_, rfl⟩
    rw [← hE, ← hMd] at hb
    rw [← hMd] at hM
    have hEd : d + 1 ≤ E := by
      by_contra hc
      have hEle : E ≤ d := by omega
      by_cases hE0 : E = 0
      · have hbl : b < 2 ^ 24 := by rw [hb, hE0]; norm_num at hM ⊢; omega
        rw [mag_of_lt b hbl] at h
        omega
      · have hm := mag_encode E M hM (by omega)
        rw [← hb] at hm
        have h1 : (2 ^ 23 + M) * 2 ^ (E - 1) < 2 ^ 24 * 2 ^ (E - 1) :=
          Nat.mul_lt_mul_of_pos_right (by norm_num at hM ⊢; omega) (by positivity)
        have h2 : 2 ^ 24 * 2 ^ (E - 1) ≤ 2 ^ (d + 23) := by
          rw [← pow_add]
          exact Nat.pow_le_pow_right (by norm_num) (by omega)
        omega
    have hq' : (if 2 ^ d < 2 * (n % 2 ^ d) ∨ (2 * (n % 2 ^ d) = 2 ^ d ∧ n / 2 ^ d % 2 = 1)
        then n / 2 ^ d + 1 else n / 2 ^ d) ≤ n / 2 ^ d + 1 := by
      split <;> omega
    by_cases hE2 : d + 2 ≤ E
    · have h3 : (d + 2) * 2 ^ 23 ≤ E * 2 ^ 23 := Nat.mul_le_mul_right _ hE2
      have h4 : (d - 0) * 2 ^ 23 + 2 ^ 24 = (d + 2) * 2 ^ 23 := by
        rw [Nat.sub_zero, Nat.add_mul]; norm_num
      omega
    · have hEeq : E = d + 1 := by omega
      have hm := mag_encode E M hM (by omega)
      rw [← hb, hEeq, Nat.add_sub_cancel] at hm
      rw [hm] at h
      have hfin : (if 2 ^ d < 2 * (n % 2 ^ d) ∨ (2 * (n % 2 ^ d) = 2 ^ d ∧ n / 2 ^ d % 2 = 1)
          then n / 2 ^ d + 1 else n / 2 ^ d) ≤ 2 ^ 23 + M := by
        by_cases hr0 : n % 2 ^ d = 0
        · rw [hr0, if_neg (by simp only [Nat.mul_zero]; omega)]
          exact Nat.div_le_of_le_mul (by rw [Nat.mul_comm]; exact h)
        · have h5 : n / 2 ^ d * 2 ^ d < (2 ^ 23 + M) * 2 ^ d := by
            have : 2 ^ d * (n / 2 ^ d) = n / 2 ^ d * 2 ^ d := Nat.mul_comm _ _
            omega
          have h6 : n / 2 ^ d < 2 ^ 23 + M := Nat.lt_of_mul_lt_mul_right h5
          omega
      have h7 : (d - 0) * 2 ^ 23 + (2 ^ 23 + M) = (d + 1) * 2 ^ 23 + M := by
        rw [Nat.sub_zero, Nat.add_mul]; omega
      rw [hb, hEeq]
      omega

theorem mag_le_mag (b c : Nat) (h : b ≤ c) : mag b ≤ mag c := by
  by_contra hc
  push_neg at hc
  have h1 := roundBits_le_of_le_mag (mag c) b (le_of_lt hc)
  rw [roundBits_mag] at h1
  have : b = c := le_antisymm h h1
  rw [this] at hc
  exact lt_irrefl _ hc

theorem roundBits_half (b : Nat) :
    roundBits (mag b) 1 ≤ b ∧ mag b ≤ 2 * mag (roundBits (mag b) 1) + 1 ∧
      2 * mag (roundBits (mag b) 1) ≤ mag b + 1 := by
  by_cases hb : b < 2 ^ 24
  · rw [mag_of_lt b hb]
    have hbl : bitLength b ≤ 24 := (bitLength_le_iff b 24).2 hb
    rw [roundBits_eq b 1 1 (by rw [max_eq_right (by omega)])]
    simp only [Nat.sub_self, Nat.zero_mul, Nat.zero_add, pow_one]
    have hlt : (if 2 < 2 * (b % 2) ∨ (2 * (b % 2) = 2 ∧ b / 2 % 2 = 1) then b / 2 + 1 else b / 2)
        < 2 ^ 24 := by
      norm_num at hb ⊢
      split <;> omega
    rw [mag_of_lt _ hlt]
    split <;> omega
  · obtain ⟨hd, hM⟩ := bits_decompose b
    obtain ⟨E, hE⟩ : ∃ E, E = b / 2 ^ 23 := ⟨_, rfl⟩
    obtain ⟨M, hMd⟩ : ∃ M, M = b % 2 ^ 23 := ⟨_, rfl⟩
    rw [← hE, ← hMd] at hd
    rw [← hMd] at hM
    have hE2 : 2 ≤ E := by
      by_contra hc
      have : E = 0 ∨ E = 1 := by omega
      rcases this with h | h <;> rw [h] at hd <;> norm_num at hd hb hM <;> omega
    have hm := mag_encode E M hM (by omega)
    rw [← hd] at hm
    rw [hm, roundBits_exact (2 ^ 23 + M) (E - 1) 1 (by norm_num at hM ⊢; omega) (by omega)
      (Or.inr (by omega))]
    have h1 : (E - 1 - 1) * 2 ^ 23 + (2 ^ 23 + M) = (E - 1) * 2 ^ 23 + M := by
      have : E - 1 = (E - 1 - 1) + 1 := by omega
      rw [this, Nat.add_mul]; simp only [Nat.add_sub_cancel]; omega
    rw [h1, mag_encode (E - 1) M hM (by omega)]
    have h2 : 2 ^ (E - 1) = 2 * 2 ^ (E - 1 - 1) := by
      rw [← pow_succ']; congr 1; omega
    have h3 : (E - 1) * 2 ^ 23 ≤ E * 2 ^ 23 := Nat.mul_le_mul_right _ (by omega)
    refine ⟨by omega, ?_, ?_⟩
    · rw [h2, Nat.mul_left_comm]; omega
    · rw [h2, Nat.mul_left_comm]; omega

theorem mul_half_finite (s : Bool) (a : Fin 0x7F800000) :
    ∃ c : Fin 0x7F800000, mul (fin s a) half = fin s c ∧ c.val ≤ a.val ∧
      mag a.val ≤ 2 * mag c.val + 1 ∧ 2 * mag c.val ≤ mag a.val + 1 := by
  obtain ⟨h1, h2, h3⟩ := roundBits_half a.val
  have hlt : roundBits (mag a.val) 1 < 0x7F800000 := lt_of_le_of_lt h1 a.isLt
  refine ⟨⟨roundBits (mag a.val) 1, hlt⟩, ?_, h1, h2, h3⟩
  rw [mul_half_eq_ofMag]
  unfold ofMag
  rw [dif_pos hlt]

theorem scaled_fin_false (b : Fin 0x7F800000) : scaled (fin false b) = (mag b.val : Int) := rfl

theorem scaled_fin_true (b : Fin 0x7F800000) : scaled (fin true b) = -(mag b.val : Int) := rfl

theorem add_fin_of_sum_zero (s t : Bool) (a b : Fin 0x7F800000)
    (h : scaled (fin s a) + scaled (fin t b) = 0) :
    add (fin s a) (fin t b) = fin (s && t) ⟨0, by decide⟩ := by
  simp only [add, h, if_true]

theorem add_fin_of_sum_pos (s t : Bool) (a b c : Fin 0x7F800000)
    (h0 : 0 < scaled (fin s a) + scaled (fin t b))
    (h1 : scaled (fin s a) + scaled (fin t b) ≤ (mag c.val : Int)) :
    ∃ r : Fin 0x7F800000, add (fin s a) (fin t b) = fin false r ∧ mag r.val ≤ mag c.val := by
  obtain ⟨v, hv⟩ : ∃ v, v = scaled (fin s a) + scaled (fin t b) := ⟨_, rfl⟩
  rw [← hv] at h0 h1
  have hn : (v.natAbs : Int) = v := Int.natAbs_of_nonneg (le_of_lt h0)
  have hle : v.natAbs ≤ mag c.val := by omega
  have hr := roundBits_le_of_le_mag v.natAbs c.val hle
  have hlt : roundBits v.natAbs 0 < 0x7F800000 := lt_of_le_of_lt hr c.isLt
  refine ⟨⟨roundBits v.natAbs 0, hlt⟩, ?_, mag_le_mag _ _ hr⟩
  have hd : decide (v < 0) = false := by
    simp only [decide_eq_false_iff_not]; omega
  simp only [add, ← hv]
  rw [if_neg (by omega), hd]
  unfold ofMag
  rw [dif_pos hlt]

theorem scaled_zero_bits (s : Bool) : scaled (fin s ⟨0, by decide⟩) = 0 := by
  cases s <;> rfl

/-- One coordinate of the corner translation: a finite `x` within half of the
finite size `w ≥ 0` of the origin goes to a finite value within `[0, w]`. -/
theorem sub_corner_range (w x : F32) (hw : w.isFinite = true) (hx : x.isFinite = true)
    (h0 : 0 ≤ scaled w) (h1 : -(scaled w) ≤ 2 * scaled x) (h2 : 2 * scaled x ≤ scaled w) :
    (sub x (neg (mul w half))).isFinite = true ∧ 0 ≤ scaled (sub x (neg (mul w half))) ∧
      scaled (sub x (neg (mul w half))) ≤ scaled w := by
  cases w with
  | nan => simp [isFinite] at hw
  | inf s => simp [isFinite] at hw
  | fin sw bw =>
    cases x with
    | nan => simp [isFinite] at hx
    | inf s => simp [isFinite] at hx
    | fin sx bx =>
      obtain ⟨c, hc, _, hc2, hc3⟩ := mul_half_finite sw bw
      have hsub : sub (fin sx bx) (neg (mul (fin sw bw) half)) = add (fin sx bx) (fin sw c) := by
        rw [hc]; simp only [sub, neg, Bool.not_not]
      rw [hsub]
      cases sw with
      | true =>
        rw [scaled_fin_true] at h0 h1 h2
        have hm : mag bw.val = 0 := by omega
        have hmc : mag c.val = 0 := by omega
        have hsum : scaled (fin sx bx) + scaled (fin true c) = 0 := by
          rw [scaled_fin_true c, hmc]; rw [hm] at h1 h2; simp at h1 h2 ⊢; omega
        rw [add_fin_of_sum_zero _ _ _ _ hsum, scaled_zero_bits, scaled_fin_true, hm]
        simp [isFinite]
      | false =>
        rw [scaled_fin_false] at h0 h1 h2
        by_cases hz : scaled (fin sx bx) + scaled (fin false c) = 0
        · rw [add_fin_of_sum_zero _ _ _ _ hz, scaled_zero_bits, scaled_fin_false]
          simp [isFinite]
        · have hpos : 0 < scaled (fin sx bx) + scaled (fin false c) := by
            rw [scaled_fin_false] at hz ⊢; omega
          have hle : scaled (fin sx bx) + scaled (fin false c) ≤ (mag bw.val : Int) := by
            rw [scaled_fin_false]; omega
          obtain ⟨r, hr, hrm⟩ := add_fin_of_sum_pos sx false bx c bw hpos hle
          rw [hr, scaled_fin_false, scaled_fin_false]
          refine ⟨rfl, by omega, by omega⟩

/-- One coordinate of the corner translation: a finite `x` whose value is
exactly minus half of the finite size `w ≥ 0` goes to a zero. -/
theorem sub_corner_zero (w x : F32) (hw : w.isFinite = true) (hx : x.isFinite = true)
    (h0 : 0 ≤ scaled w) (h1 : 2 * scaled x = -(scaled w)) :
    (sub x (neg (mul w half))).isFinite = true ∧ scaled (sub x (neg (mul w half))) = 0 := by
  obtain ⟨hf, ha, hb⟩ := sub_corner_range w x hw hx h0 (by omega) (by omega)
  refine ⟨hf, ?_⟩
  cases w with
  | nan => simp [isFinite] at hw
  | inf s => simp [isFinite] at hw
  | fin sw bw =>
    cases x with
    | nan => simp [isFinite] at hx
    | inf s => simp [isFinite] at hx
    | fin sx bx =>
      obtain ⟨c, hc, _, hc2, hc3⟩ := mul_half_finite sw bw
      have hsub : sub (fin sx bx) (neg (mul (fin sw bw) half)) = add (fin sx bx) (fin sw c) := by
        rw [hc]; simp only [sub, neg, Bool.not_not]
      rw [hsub]
      have hsum : scaled (fin sx bx) + scaled (fin sw c) = 0 := by
        cases sw with
        | true =>
          rw [scaled_fin_true] at h0 h1 ⊢
          omega
        | false =>
          rw [scaled_fin_false] at h0 h1 ⊢
          omega
      rw [add_fin_of_sum_zero _ _ _ _ hsum, scaled_zero_bits]

theorem toRat_nonneg_iff (x : F32) : 0 ≤ toRat x ↔ 0 ≤ scaled x := by
  unfold toRat
  rw [le_div_iff₀ (by positivity), zero_mul]
  exact_mod_cast Iff.rfl

theorem toRat_le_iff (x y : F32) : toRat x ≤ toRat y ↔ scaled x ≤ scaled y := by
  unfold toRat
  rw [div_le_div_iff_of_pos_right (by positivity)]
  exact_mod_cast Iff.rfl

theorem toRat_eq_zero_iff (x : F32) : toRat x = 0 ↔ scaled x = 0 := by
  unfold toRat
  rw [div_eq_zero_iff]
  constructor
  · rintro (h | h)
    · exact_mod_cast h
    · exact absurd h (by positivity)
  · intro h
    left
    exact_mod_cast h

theorem neg_half_le_toRat_iff (w x : F32) :
    -(toRat w) / 2 ≤ toRat x ↔ -(scaled w) ≤ 2 * scaled x := by
  unfold toRat
  have hc : (0 : ℚ) < 2 ^ 149 := by positivity
  have e : -((scaled w : ℚ) / 2 ^ 149) / 2 = (-(scaled w : ℚ) / 2) / 2 ^ 149 := by ring
  rw [e, div_le_div_iff_of_pos_right hc, div_le_iff₀ (by norm_num : (0 : ℚ) < 2)]
  constructor
  · intro h
    have : (-(scaled w) : ℚ) ≤ 2 * (scaled x : ℚ) := by linarith
    exact_mod_cast this
  · intro h
    have : (-(scaled w) : ℚ) ≤ 2 * (scaled x : ℚ) := by exact_mod_cast h
    linarith

theorem toRat_le_half_iff (w x : F32) :
    toRat x ≤ toRat w / 2 ↔ 2 * scaled x ≤ scaled w := by
  unfold toRat
  have hc : (0 : ℚ) < 2 ^ 149 := by positivity
  have e : (scaled w : ℚ) / 2 ^ 149 / 2 = ((scaled w : ℚ) / 2) / 2 ^ 149 := by ring
  rw [e, div_le_div_iff_of_pos_right hc, le_div_iff₀ (by norm_num : (0 : ℚ) < 2)]
  constructor
  · intro h
    have : 2 * (scaled x : ℚ) ≤ (scaled w : ℚ) := by linarith
    exact_mod_cast this
  · intro h
    have : 2 * (scaled x : ℚ) ≤ (scaled w : ℚ) := by exact_mod_cast h
    linarith

theorem toRat_eq_neg_half_iff (w x : F32) :
    toRat x = -(toRat w) / 2 ↔ 2 * scaled x = -(scaled w) := by
  constructor
  · intro h
    unfold toRat at h
    have : 2 * (scaled x : ℚ) = -(scaled w : ℚ) := by
      field_simp at h
      linarith
    exact_mod_cast this
  · intro h
    unfold toRat
    have : 2 * (scaled x : ℚ) = -(scaled w : ℚ) := by exact_mod_cast h
    field_simp
    linarith

theorem toRat_sub_eq_iff (a b c d : F32) :
    toRat a - toRat b = toRat c - toRat d ↔ scaled a - scaled b = scaled c - scaled d := by
  unfold toRat
  rw [← sub_div, ← sub_div, div_left_inj' (by positivity)]
  exact_mod_cast Iff.rfl

theorem mag_normal (d m : Nat) (h1 : 2 ^ 23 ≤ m) (h2 : m ≤ 2 ^ 24) :
    mag (d * 2 ^ 23 + m) = m * 2 ^ d := by
  by_cases hm : m < 2 ^ 24
  · have e : d * 2 ^ 23 + m = (d + 1) * 2 ^ 23 + (m - 2 ^ 23) := by
      rw [Nat.add_mul]; omega
    rw [e, mag_encode (d + 1) (m - 2 ^ 23) (by omega) (by omega), Nat.add_sub_cancel,
      Nat.add_sub_of_le h1]
  · have hm2 : m = 2 ^ 24 := by omega
    have e : d * 2 ^ 23 + m = (d + 2) * 2 ^ 23 + 0 := by
      have := Nat.add_mul d 2 (2 ^ 23)
      omega
    rw [e, mag_encode (d + 2) 0 (by norm_num) (by omega), hm2,
      show d + 2 - 1 = d + 1 by omega, pow_succ]
    ring

/-- Rounding error of `roundBits`: at most `2^-24` of the rounded magnitude. -/
theorem roundBits_error (n : Nat) :
    |(mag (roundBits n 0) : Int) - (n : Int)| * 2 ^ 24 ≤ (n : Int) := by
  by_cases hn : n < 2 ^ 24
  · rw [roundBits_of_lt n hn, mag_of_lt n hn]
    simp
  · have hn0 : n ≠ 0 := by
      intro h0; rw [h0] at hn; exact hn (by norm_num)
    have hbl : ¬ bitLength n ≤ 24 := fun hc => hn ((bitLength_le_iff n 24).1 hc)
    obtain ⟨d, hd⟩ : ∃ d, d = bitLength n - 24 := ⟨_, rfl⟩
    have hlo : 2 ^ (d + 23) ≤ n := by
      have := pow_bitLength_le n hn0
      rwa [show bitLength n - 1 = d + 23 by omega] at this
    have hhi : n < 2 ^ (d + 24) := by
      have := lt_pow_bitLength n
      rwa [show bitLength n = d + 24 by omega] at this
    have hpos : 0 < 2 ^ d := by positivity
    have hq1 : n / 2 ^ d < 2 ^ 24 := by
      rw [Nat.div_lt_iff_lt_mul hpos, ← pow_add, Nat.add_comm]; exact hhi
    have hq0 : 2 ^ 23 ≤ n / 2 ^ d := by
      rw [Nat.le_div_iff_mul_le hpos, ← pow_add, Nat.add_comm]; exact hlo
    have hmod := Nat.div_add_mod n (2 ^ d)
    have hcomm : 2 ^ d * (n / 2 ^ d) = n / 2 ^ d * 2 ^ d := Nat.mul_comm _ _
    have hrlt : n % 2 ^ d < 2 ^ d := Nat.mod_lt _ hpos
    have hlo2 : 2 ^ d * 2 ^ 23 ≤ n := by rw [← pow_add]; exact hlo
    rw [roundBits_eq n 0 d (by rw [hd]; simp), Nat.sub_zero]
    have hP23 : 2 ^ d * 8388608 ≤ n := by norm_num at hlo2; exact hlo2
    have h23 : (2 : Nat) ^ 23 = 8388608 := by norm_num
    have h24 : (2 : Nat) ^ 24 = 16777216 := by norm_num
    rw [h23] at hq0
    rw [h24] at hq1
    generalize hPd : 2 ^ d = P at *
    generalize hrd : n % P = r at *
    generalize hqd : n / P = q at *
    generalize hQd : q * P = Q at *
    have hn2 : n = Q + r := by omega
    split
    · rename_i hc
      rw [mag_normal d (q + 1) (by omega) (by omega), Nat.add_mul, Nat.one_mul, hPd, hQd]
      have h2r : P ≤ 2 * r := by omega
      have hnn : (0 : Int) ≤ ((Q + P : Nat) : Int) - (n : Int) := by omega
      rw [abs_of_nonneg hnn]
      omega
    · rename_i hc
      rw [mag_normal d q (by omega) (by omega), hPd, hQd]
      have h2r : 2 * r ≤ P := by omega
      have hnn : ((Q : Nat) : Int) - (n : Int) ≤ 0 := by omega
      rw [abs_of_nonpos hnn]
      omega

theorem scaled_fin_not (t : Bool) (b : Fin 0x7F800000) :
    scaled (fin (!t) b) = -scaled (fin t b) := by
  cases t <;> simp [scaled]

theorem isFinite_ofMag (s : Bool) (n : Nat) (h : (ofMag s n 0).isFinite = true) :
    ∃ r : Fin 0x7F800000, ofMag s n 0 = fin s r ∧ r.val = roundBits n 0 := by
  unfold ofMag at h ⊢
  by_cases hlt : roundBits n 0 < 0x7F800000
  · rw [dif_pos hlt]
    exact ⟨⟨_, hlt⟩, rfl, rfl⟩
  · rw [dif_neg hlt] at h
    simp [isFinite] at h

/-- Rounding error of one `float` subtraction with a finite result, on values
in units of `2^-149`: at most `2^-24` of the exact difference. -/
theorem sub_error (a b : F32) (h : (sub a b).isFinite = true) :
    |scaled (sub a b) - (scaled a - scaled b)| * 2 ^ 24 ≤ |scaled a - scaled b| := by
  cases a with
  | nan => simp [sub, add, isFinite] at h
  | inf s =>
    cases b with
    | nan => simp [sub, neg, add, isFinite] at h
    | inf t =>
      simp only [sub, neg, add] at h
      split at h <;> simp [isFinite] at h
    | fin t b => simp [sub, neg, add, isFinite] at h
  | fin s a =>
    cases b with
    | nan => simp [sub, neg, add, isFinite] at h
    | inf t => simp [sub, neg, add, isFinite] at h
    | fin t b =>
      obtain ⟨v, hv⟩ : ∃ v, v = scaled (fin s a) - scaled (fin t b) := ⟨_, rfl⟩
      have hv2 : scaled (fin s a) + scaled (fin (!t) b) = v := by
        rw [scaled_fin_not, hv]; ring
      rw [← hv]
      have hsub : sub (fin s a) (fin t b) =
          if v = 0 then fin (s && !t) ⟨0, by decide⟩ else ofMag (decide (v < 0)) v.natAbs 0 := by
        simp only [sub, neg, add, hv2]
      rw [hsub] at h ⊢
      by_cases hz : v = 0
      · rw [if_pos hz, scaled_zero_bits, hz]
        simp
      · rw [if_neg hz] at h ⊢
        obtain ⟨r, hr, hrv⟩ := isFinite_ofMag _ _ h
        rw [hr]
        have herr := roundBits_error v.natAbs
        rw [← hrv] at herr
        by_cases hneg : v < 0
        · have hd : decide (v < 0) = true := by simpa using hneg
          rw [hd, scaled_fin_true]
          have e1 : (v.natAbs : Int) = -v := by omega
          rw [e1] at herr
          have e2 : -(mag r.val : Int) - v = -((mag r.val : Int) - -v) := by ring
          rw [e2, abs_neg, abs_of_neg hneg]
          exact herr
        · have hd : decide (v < 0) = false := by simpa using hneg
          rw [hd, scaled_fin_false]
          have e1 : (v.natAbs : Int) = v := by omega
          rw [e1] at herr
          rw [abs_of_nonneg (show (0 : Int) ≤ v by omega)]
          exact herr

/-- Rounding error of one `float` subtraction with a finite result, on exact
values: at most `2^-24` of the exact difference. -/
theorem toRat_sub_error (a b : F32) (h : (sub a b).isFinite = true) :
    |toRat (sub a b) - (toRat a - toRat b)| ≤ |toRat a - toRat b| / 2 ^ 24 := by
  have hi := sub_error a b h
  have hq : |((scaled (sub a b) : ℚ) - ((scaled a : ℚ) - (scaled b : ℚ)))| * 2 ^ 24 ≤
      |(scaled a : ℚ) - (scaled b : ℚ)| := by exact_mod_cast hi
  have hc : (0 : ℚ) < 2 ^ 149 := by positivity
  have e1 : toRat (sub a b) - (toRat a - toRat b) =
      ((scaled (sub a b) : ℚ) - ((scaled a : ℚ) - (scaled b : ℚ))) / 2 ^ 149 := by
    unfold toRat; ring
  have e2 : toRat a - toRat b = ((scaled a : ℚ) - (scaled b : ℚ)) / 2 ^ 149 := by
    unfold toRat; ring
  rw [e1, e2, abs_div, abs_div, abs_of_pos hc, le_div_iff₀ (by positivity), div_mul_eq_mul_div]
  exact div_le_div_of_nonneg_right hq (le_of_lt hc)

/-- Two subtractions of the same `o` with finite results keep the difference
of the values up to the two rounding errors. -/
theorem toRat_sub_sub_error (a b o : F32) (ha : (sub a o).isFinite = true)
    (hb : (sub b o).isFinite = true) :
    |(toRat (sub a o) - toRat (sub b o)) - (toRat a - toRat b)| ≤
      (|toRat a - toRat o| + |toRat b - toRat o|) / 2 ^ 24 := by
  have h1 := toRat_sub_error a o ha
  have h2 := toRat_sub_error b o hb
  have e : (toRat (sub a o) - toRat (sub b o)) - (toRat a - toRat b) =
      (toRat (sub a o) - (toRat a - toRat o)) - (toRat (sub b o) - (toRat b - toRat o)) := by
    ring
  rw [e, add_div]
  exact le_trans (abs_sub _ _) (add_le_add h1 h2)

end F32


/-! ## The node: execution paths and the properties of the specification -/
namespace node_geo_mesh_primitive_grid_cc

open F32

theorem node_geo_exec_degenerate (host : Host) (storage : NodeGeometryMeshGrid)
    (size_x size_y : F32) (verts_x verts_y : Int) (h : verts_x < 1 ∨ verts_y < 1) :
    node_geo_exec host (GeoNodeExecParams.start storage size_x size_y verts_x verts_y) =
      { size_x := size_x, size_y := size_y, verts_x := verts_x, verts_y := verts_y,
        storage := storage, out_mesh := .default_value, out_uv_map := .default_value,
        calls := [.extract_input "Size X", .extract_input "Size Y",
          .extract_input "Vertices X", .extract_input "Vertices Y",
          .set_default_remaining_outputs] } := by
  simp [node_geo_exec, GeoNodeExecParams.start, GeoNodeExecParams.log,
    GeoNodeExecParams.set_default_remaining_outputs, h]

theorem node_geo_exec_normal (host : Host) (storage : NodeGeometryMeshGrid)
    (size_x size_y : F32) (verts_x verts_y : Int) (h1 : 1 ≤ verts_x) (h2 : 1 ≤ verts_y) :
    node_geo_exec host (GeoNodeExecParams.start storage size_x size_y verts_x verts_y) =
      { size_x := size_x, size_y := size_y, verts_x := verts_x, verts_y := verts_y,
        storage := storage,
        out_mesh := .geometry (BKE_id_material_eval_ensure_default_slot
          { host.create_grid_mesh verts_x verts_y size_x size_y host.uv_map_id_if_needed with
            vert_positions := apply_pivot_offset
              (calculate_pivot_offset storage.pivot ⟨size_x, size_y⟩)
              (host.create_grid_mesh verts_x verts_y size_x size_y
                host.uv_map_id_if_needed).vert_positions }),
        out_uv_map := .unset,
        calls := [.extract_input "Size X", .extract_input "Size Y",
          .extract_input "Vertices X", .extract_input "Vertices Y",
          .get_output_anonymous_attribute_id_if_needed "UV Map",
          .create_grid_mesh verts_x verts_y size_x size_y host.uv_map_id_if_needed,
          .BKE_id_material_eval_ensure_default_slot, .set_output "Mesh"] } := by
  have h : ¬ (verts_x < 1 ∨ verts_y < 1) := by omega
  simp [node_geo_exec, GeoNodeExecParams.start, GeoNodeExecParams.log, h]

theorem ensure_default_slot_positions (mesh : Mesh) :
    (BKE_id_material_eval_ensure_default_slot mesh).vert_positions = mesh.vert_positions := by
  unfold BKE_id_material_eval_ensure_default_slot
  split <;> rfl

theorem apply_pivot_offset_getElem? (off : float2) (ps : List float3) (i : Nat) :
    (apply_pivot_offset off ps)[i]? =
      ps[i]?.map fun p => ⟨F32.sub p.x off.x, F32.sub p.y off.y, p.z⟩ := by
  simp [apply_pivot_offset]

theorem apply_pivot_offset_length (off : float2) (ps : List float3) :
    (apply_pivot_offset off ps).length = ps.length := by
  simp [apply_pivot_offset]

theorem apply_pivot_offset_zero (ps : List float3) :
    apply_pivot_offset float2_zero ps = ps := by
  unfold apply_pivot_offset float2_zero
  simp only [F32.sub_zero]
  exact List.map_id _

theorem calculate_pivot_offset_not_corner (pivot : Int) (size : float2)
    (h : pivot ≠ GEO_NODE_GRID_PIVOT_CORNER_FRONT_LEFT) :
    calculate_pivot_offset pivot size = float2_zero := by
  unfold calculate_pivot_offset
  by_cases h0 : pivot = GEO_NODE_GRID_PIVOT_CENTER
  · simp [h0]
  · simp [h0, h]

theorem calculate_pivot_offset_corner (size : float2) :
    calculate_pivot_offset GEO_NODE_GRID_PIVOT_CORNER_FRONT_LEFT size =
      ⟨F32.neg (F32.mul size.x F32.half), F32.neg (F32.mul size.y F32.half)⟩ := by
  simp [calculate_pivot_offset, float2.scale, GEO_NODE_GRID_PIVOT_CORNER_FRONT_LEFT,
    GEO_NODE_GRID_PIVOT_CENTER]

theorem int_in_declared_range_vertices_x (v : Int) :
    int_in_declared_range "Vertices X" v = true ↔ 2 ≤ v ∧ v ≤ 1000 := by
  simp [int_in_declared_range, node_declare_inputs]

theorem int_in_declared_range_vertices_y (v : Int) :
    int_in_declared_range "Vertices Y" v = true ↔ 2 ≤ v ∧ v ≤ 1000 := by
  simp [int_in_declared_range, node_declare_inputs]

set_option maxRecDepth 20000

theorem eval_mul_two_half : F32.mul F32.two F32.half = F32.one := by decide

theorem eval_mul_four_half : F32.mul F32.four F32.half = F32.two := by decide

theorem eval_zero_sub_neg_one : F32.sub F32.zero (F32.neg F32.one) = F32.one := by decide

theorem eval_zero_sub_neg_two : F32.sub F32.zero (F32.neg F32.two) = F32.two := by decide

/-- C1: for pivot = front-left corner (value 1) and every size `(w, h)`,
`calculate_pivot_offset` returns exactly `(-(w / 2), -(h / 2))`, the quotients
being those of `float`; size `(2, 4)` gives `(-1, -2)`. -/
theorem C1_corner_offset (w h : F32) :
    calculate_pivot_offset GEO_NODE_GRID_PIVOT_CORNER_FRONT_LEFT ⟨w, h⟩ =
        ⟨F32.neg (F32.div w F32.two), F32.neg (F32.div h F32.two)⟩ ∧
      GEO_NODE_GRID_PIVOT_CORNER_FRONT_LEFT = 1 ∧
      calculate_pivot_offset 1 ⟨F32.two, F32.four⟩ = ⟨F32.neg F32.one, F32.neg F32.two⟩ := by
  refine ⟨?_, rfl, ?_⟩
  · rw [calculate_pivot_offset_corner, F32.mul_half_eq_div_two, F32.mul_half_eq_div_two]
  · have := calculate_pivot_offset_corner ⟨F32.two, F32.four⟩
    rw [eval_mul_two_half, eval_mul_four_half] at this
    exact this

/-- C2: for pivot = center (value 0) and every size `(w, h)`,
`calculate_pivot_offset` returns `(0, 0)`, whatever the size. -/
theorem C2_center_offset (w h : F32) :
    calculate_pivot_offset GEO_NODE_GRID_PIVOT_CENTER ⟨w, h⟩ = ⟨F32.zero, F32.zero⟩ ∧
      GEO_NODE_GRID_PIVOT_CENTER = 0 := by
  refine ⟨?_, rfl⟩
  simp [calculate_pivot_offset, float2_zero]

/-- C3: for every pivot value other than 0 and 1, negative values included,
and every size, `calculate_pivot_offset` returns `(0, 0)`, the same value as
for the center pivot; the function is total and has no error result. -/
theorem C3_unknown_pivot_offset (pivot : Int) (size : float2) (h0 : pivot ≠ 0)
    (h1 : pivot ≠ 1) :
    calculate_pivot_offset pivot size = ⟨F32.zero, F32.zero⟩ ∧
      calculate_pivot_offset pivot size =
        calculate_pivot_offset GEO_NODE_GRID_PIVOT_CENTER size := by
  have hc : pivot ≠ GEO_NODE_GRID_PIVOT_CENTER := h0
  have hk : pivot ≠ GEO_NODE_GRID_PIVOT_CORNER_FRONT_LEFT := h1
  simp [calculate_pivot_offset, float2_zero, hc, hk]

theorem C3_unknown_pivot_offset_witness :
    ((-7 : Int) ≠ 0 ∧ (-7 : Int) ≠ 1) ∧
      calculate_pivot_offset (-7) ⟨F32.two, F32.four⟩ = ⟨F32.zero, F32.zero⟩ ∧
      calculate_pivot_offset (-7) ⟨F32.two, F32.four⟩ =
        calculate_pivot_offset GEO_NODE_GRID_PIVOT_CENTER ⟨F32.two, F32.four⟩ :=
  ⟨⟨by decide, by decide⟩,
    C3_unknown_pivot_offset (-7) ⟨F32.two, F32.four⟩ (by decide) (by decide)⟩

/-- C4: when `verts_x < 1` or `verts_y < 1`, for every size and stored pivot,
`node_geo_exec` only calls `set_default_remaining_outputs` (after extracting
its inputs): both outputs hold the default value, `create_grid_mesh` is never
called and no mesh is published on the Mesh output. -/
theorem C4_degenerate_counts (host : Host) (storage : NodeGeometryMeshGrid)
    (size_x size_y : F32) (verts_x verts_y : Int) (h : verts_x < 1 ∨ verts_y < 1) :
    (node_geo_exec host
        (GeoNodeExecParams.start storage size_x size_y verts_x verts_y)).out_mesh =
        .default_value ∧
      (node_geo_exec host
        (GeoNodeExecParams.start storage size_x size_y verts_x verts_y)).out_uv_map =
        .default_value ∧
      (node_geo_exec host
        (GeoNodeExecParams.start storage size_x size_y verts_x verts_y)).calls =
        [.extract_input "Size X", .extract_input "Size Y", .extract_input "Vertices X",
          .extract_input "Vertices Y", .set_default_remaining_outputs] ∧
      (node_geo_exec host
        (GeoNodeExecParams.start storage size_x size_y verts_x verts_y)).calls.any
          HostCall.is_create_grid_mesh = false ∧
      (node_geo_exec host
        (GeoNodeExecParams.start storage size_x size_y verts_x verts_y)).out_mesh.is_geometry =
        false := by
  rw [node_geo_exec_degenerate host storage size_x size_y verts_x verts_y h]
  simp [HostCall.is_create_grid_mesh, OutputValue.is_geometry]

theorem C4_degenerate_counts_witness :
    ((0 : Int) < 1 ∨ (5 : Int) < 1) ∧
      (node_geo_exec ⟨fun _ _ _ _ _ => ⟨[], 0⟩, none⟩
        (GeoNodeExecParams.start ⟨1⟩ F32.two F32.four 0 5)).out_mesh = .default_value ∧
      (node_geo_exec ⟨fun _ _ _ _ _ => ⟨[], 0⟩, none⟩
        (GeoNodeExecParams.start ⟨1⟩ F32.two F32.four 0 5)).out_uv_map = .default_value :=
  ⟨Or.inl (by decide),
    (C4_degenerate_counts ⟨fun _ _ _ _ _ => ⟨[], 0⟩, none⟩ ⟨1⟩ F32.two F32.four 0 5
      (Or.inl (by decide))).1,
    (C4_degenerate_counts ⟨fun _ _ _ _ _ => ⟨[], 0⟩, none⟩ ⟨1⟩ F32.two F32.four 0 5
      (Or.inl (by decide))).2.1⟩

/-- C5: for `verts_x ≥ 1` and `verts_y ≥ 1`, if `create_grid_mesh` returns a
mesh with `verts_x * verts_y` vertices, the published mesh has `verts_x *
verts_y` vertices and vertex `i` is `(x_i - offset.x, y_i - offset.y, z_i)`, the
offset being `calculate_pivot_offset` of the stored pivot and the size; with
size `(2, 4)` and the corner pivot a vertex at `(0, 0, 0)` ends at `(1, 2, 0)`. -/
theorem C5_translated_mesh (host : Host) (storage : NodeGeometryMeshGrid)
    (size_x size_y : F32) (verts_x verts_y : Int) (h1 : 1 ≤ verts_x) (h2 : 1 ≤ verts_y)
    (hcount : ((host.create_grid_mesh verts_x verts_y size_x size_y
      host.uv_map_id_if_needed).vert_positions.length : Int) = verts_x * verts_y) :
    (∃ mesh : Mesh,
      (node_geo_exec host
        (GeoNodeExecParams.start storage size_x size_y verts_x verts_y)).out_mesh =
        .geometry mesh ∧
      (mesh.vert_positions.length : Int) = verts_x * verts_y ∧
      ∀ i : Nat, mesh.vert_positions[i]? =
        (host.create_grid_mesh verts_x verts_y size_x size_y
          host.uv_map_id_if_needed).vert_positions[i]?.map fun p =>
            ⟨F32.sub p.x (calculate_pivot_offset storage.pivot ⟨size_x, size_y⟩).x,
             F32.sub p.y (calculate_pivot_offset storage.pivot ⟨size_x, size_y⟩).y, p.z⟩) ∧
      apply_pivot_offset
          (calculate_pivot_offset GEO_NODE_GRID_PIVOT_CORNER_FRONT_LEFT ⟨F32.two, F32.four⟩)
          [⟨F32.zero, F32.zero, F32.zero⟩] = [⟨F32.one, F32.two, F32.zero⟩] := by
  refine ⟨⟨_, by rw [node_geo_exec_normal host storage size_x size_y verts_x verts_y h1 h2],
    ?_, ?_⟩, ?_⟩
  · rw [ensure_default_slot_positions, apply_pivot_offset_length]
    exact hcount
  · intro i
    rw [ensure_default_slot_positions, apply_pivot_offset_getElem?]
  · rw [calculate_pivot_offset_corner]
    simp only [apply_pivot_offset, List.map, eval_mul_two_half, eval_mul_four_half,
      eval_zero_sub_neg_one, eval_zero_sub_neg_two]

theorem C5_translated_mesh_witness :
    ((1 : Int) ≤ 1 ∧ (1 : Int) ≤ 1 ∧
      (((⟨fun _ _ _ _ _ => ⟨[⟨F32.zero, F32.zero, F32.zero⟩], 0⟩, none⟩ : Host).create_grid_mesh
        1 1 F32.two F32.four none).vert_positions.length : Int) = 1 * 1) ∧
    ((∃ mesh : Mesh,
      (node_geo_exec ⟨fun _ _ _ _ _ => ⟨[⟨F32.zero, F32.zero, F32.zero⟩], 0⟩, none⟩
        (GeoNodeExecParams.start ⟨1⟩ F32.two F32.four 1 1)).out_mesh = .geometry mesh ∧
      (mesh.vert_positions.length : Int) = 1 * 1 ∧
      ∀ i : Nat, mesh.vert_positions[i]? =
        ([⟨F32.zero, F32.zero, F32.zero⟩] : List float3)[i]?.map fun p =>
            ⟨F32.sub p.x (calculate_pivot_offset 1 ⟨F32.two, F32.four⟩).x,
             F32.sub p.y (calculate_pivot_offset 1 ⟨F32.two, F32.four⟩).y, p.z⟩) ∧
      apply_pivot_offset
          (calculate_pivot_offset GEO_NODE_GRID_PIVOT_CORNER_FRONT_LEFT ⟨F32.two, F32.four⟩)
          [⟨F32.zero, F32.zero, F32.zero⟩] = [⟨F32.one, F32.two, F32.zero⟩]) :=
  ⟨⟨by decide, by decide, by decide⟩,
    C5_translated_mesh ⟨fun _ _ _ _ _ => ⟨[⟨F32.zero, F32.zero, F32.zero⟩], 0⟩, none⟩ ⟨1⟩
      F32.two F32.four 1 1 (by decide) (by decide) (by decide)⟩

/-- C7: `node_init` stores pivot = center, and a node with that storage,
executed with `verts_x ≥ 1`, `verts_y ≥ 1` and any size, publishes a mesh whose
vertex positions are exactly those returned by `create_grid_mesh`. -/
theorem C7_fresh_node_identity (host : Host) (size_x size_y : F32) (verts_x verts_y : Int)
    (h1 : 1 ≤ verts_x) (h2 : 1 ≤ verts_y) :
    node_init.pivot = GEO_NODE_GRID_PIVOT_CENTER ∧
      ∃ mesh : Mesh,
        (node_geo_exec host
          (GeoNodeExecParams.start node_init size_x size_y verts_x verts_y)).out_mesh =
          .geometry mesh ∧
        mesh.vert_positions =
          (host.create_grid_mesh verts_x verts_y size_x size_y
            host.uv_map_id_if_needed).vert_positions := by
  refine ⟨rfl, _, by rw [node_geo_exec_normal host node_init size_x size_y verts_x verts_y h1 h2],
    ?_⟩
  rw [ensure_default_slot_positions]
  have : calculate_pivot_offset node_init.pivot ⟨size_x, size_y⟩ = float2_zero :=
    calculate_pivot_offset_not_corner _ _ (by decide)
  simp only [this, apply_pivot_offset_zero]

theorem C7_fresh_node_identity_witness :
    ((1 : Int) ≤ 3 ∧ (1 : Int) ≤ 1) ∧
      node_init.pivot = GEO_NODE_GRID_PIVOT_CENTER ∧
      ∃ mesh : Mesh,
        (node_geo_exec
          ⟨fun _ _ _ _ _ => ⟨[⟨F32.neg F32.one, F32.zero, F32.zero⟩,
            ⟨F32.zero, F32.zero, F32.zero⟩, ⟨F32.one, F32.zero, F32.zero⟩], 0⟩, none⟩
          (GeoNodeExecParams.start node_init F32.two F32.four 3 1)).out_mesh =
          .geometry mesh ∧
        mesh.vert_positions =
          [⟨F32.neg F32.one, F32.zero, F32.zero⟩, ⟨F32.zero, F32.zero, F32.zero⟩,
            ⟨F32.one, F32.zero, F32.zero⟩] :=
  ⟨⟨by decide, by decide⟩,
    C7_fresh_node_identity
      ⟨fun _ _ _ _ _ => ⟨[⟨F32.neg F32.one, F32.zero, F32.zero⟩,
        ⟨F32.zero, F32.zero, F32.zero⟩, ⟨F32.one, F32.zero, F32.zero⟩], 0⟩, none⟩
      F32.two F32.four 3 1 (by decide) (by decide)⟩

/-- C8: a vertex count of exactly 1 is accepted at execution time: when one
count is 1 and the other is at least 1, `node_geo_exec` does not call
`set_default_remaining_outputs`, calls `create_grid_mesh` with those counts and
publishes the resulting (translated) mesh, although 1 lies outside the
declared socket range. -/
theorem C8_count_one_accepted (host : Host) (storage : NodeGeometryMeshGrid)
    (size_x size_y : F32) (verts_x verts_y : Int)
    (h : (verts_x = 1 ∧ 1 ≤ verts_y) ∨ (verts_y = 1 ∧ 1 ≤ verts_x)) :
    HostCall.set_default_remaining_outputs ∉
        (node_geo_exec host
          (GeoNodeExecParams.start storage size_x size_y verts_x verts_y)).calls ∧
      HostCall.create_grid_mesh verts_x verts_y size_x size_y host.uv_map_id_if_needed ∈
        (node_geo_exec host
          (GeoNodeExecParams.start storage size_x size_y verts_x verts_y)).calls ∧
      (node_geo_exec host
          (GeoNodeExecParams.start storage size_x size_y verts_x verts_y)).out_mesh =
        .geometry (BKE_id_material_eval_ensure_default_slot
          { host.create_grid_mesh verts_x verts_y size_x size_y host.uv_map_id_if_needed with
            vert_positions := apply_pivot_offset
              (calculate_pivot_offset storage.pivot ⟨size_x, size_y⟩)
              (host.create_grid_mesh verts_x verts_y size_x size_y
                host.uv_map_id_if_needed).vert_positions }) ∧
      int_in_declared_range "Vertices X" 1 = false ∧
      int_in_declared_range "Vertices Y" 1 = false := by
  have h1 : 1 ≤ verts_x := by omega
  have h2 : 1 ≤ verts_y := by omega
  rw [node_geo_exec_normal host storage size_x size_y verts_x verts_y h1 h2]
  refine ⟨by simp, by simp, rfl, by decide, by decide⟩

theorem C8_count_one_accepted_witness :
    (((1 : Int) = 1 ∧ (1 : Int) ≤ 5) ∨ ((5 : Int) = 1 ∧ (1 : Int) ≤ 1)) ∧
      HostCall.set_default_remaining_outputs ∉
        (node_geo_exec ⟨fun _ _ _ _ _ => ⟨[], 0⟩, none⟩
          (GeoNodeExecParams.start ⟨0⟩ F32.one F32.one 1 5)).calls ∧
      HostCall.create_grid_mesh 1 5 F32.one F32.one none ∈
        (node_geo_exec ⟨fun _ _ _ _ _ => ⟨[], 0⟩, none⟩
          (GeoNodeExecParams.start ⟨0⟩ F32.one F32.one 1 5)).calls :=
  ⟨Or.inl ⟨rfl, by decide⟩,
    (C8_count_one_accepted ⟨fun _ _ _ _ _ => ⟨[], 0⟩, none⟩ ⟨0⟩ F32.one F32.one 1 5
      (Or.inl ⟨rfl, by decide⟩)).1,
    (C8_count_one_accepted ⟨fun _ _ _ _ _ => ⟨[], 0⟩, none⟩ ⟨0⟩ F32.one F32.one 1 5
      (Or.inl ⟨rfl, by decide⟩)).2.1⟩

/-- C9: under the declared socket bounds the degenerate branch is unreachable:
for `verts_x` and `verts_y` in `[2, 1000]`, the declared range of both
sockets, and every size and pivot, `node_geo_exec` never calls
`set_default_remaining_outputs`, calls `create_grid_mesh` exactly once and
publishes a mesh on the Mesh output. -/
theorem C9_declared_range_builds_mesh (host : Host) (storage : NodeGeometryMeshGrid)
    (size_x size_y : F32) (verts_x verts_y : Int)
    (hx1 : 2 ≤ verts_x) (hx2 : verts_x ≤ 1000) (hy1 : 2 ≤ verts_y) (hy2 : verts_y ≤ 1000) :
    int_in_declared_range "Vertices X" verts_x = true ∧
      int_in_declared_range "Vertices Y" verts_y = true ∧
      HostCall.set_default_remaining_outputs ∉
        (node_geo_exec host
          (GeoNodeExecParams.start storage size_x size_y verts_x verts_y)).calls ∧
      (node_geo_exec host
          (GeoNodeExecParams.start storage size_x size_y verts_x verts_y)).calls.filter
            HostCall.is_create_grid_mesh =
        [.create_grid_mesh verts_x verts_y size_x size_y host.uv_map_id_if_needed] ∧
      (node_geo_exec host
          (GeoNodeExecParams.start storage size_x size_y verts_x verts_y)).out_mesh.is_geometry =
        true := by
  have h1 : 1 ≤ verts_x := by omega
  have h2 : 1 ≤ verts_y := by omega
  rw [node_geo_exec_normal host storage size_x size_y verts_x verts_y h1 h2]
  refine ⟨(int_in_declared_range_vertices_x _).2 ⟨hx1, hx2⟩,
    (int_in_declared_range_vertices_y _).2 ⟨hy1, hy2⟩, by simp, ?_, rfl⟩
  simp [List.filter, HostCall.is_create_grid_mesh]

theorem C9_declared_range_builds_mesh_witness :
    ((2 : Int) ≤ 3 ∧ (3 : Int) ≤ 1000 ∧ (2 : Int) ≤ 1000 ∧ (1000 : Int) ≤ 1000) ∧
      HostCall.set_default_remaining_outputs ∉
        (node_geo_exec ⟨fun _ _ _ _ _ => ⟨[], 0⟩, none⟩
          (GeoNodeExecParams.start ⟨1⟩ F32.one F32.one 3 1000)).calls ∧
      (node_geo_exec ⟨fun _ _ _ _ _ => ⟨[], 0⟩, none⟩
          (GeoNodeExecParams.start ⟨1⟩ F32.one F32.one 3 1000)).out_mesh.is_geometry = true :=
  ⟨⟨by decide, by decide, by decide, by decide⟩,
    (C9_declared_range_builds_mesh ⟨fun _ _ _ _ _ => ⟨[], 0⟩, none⟩ ⟨1⟩ F32.one F32.one 3 1000
      (by decide) (by decide) (by decide) (by decide)).2.2.1,
    (C9_declared_range_builds_mesh ⟨fun _ _ _ _ _ => ⟨[], 0⟩, none⟩ ⟨1⟩ F32.one F32.one 3 1000
      (by decide) (by decide) (by decide) (by decide)).2.2.2.2⟩

/-- C6, as stated, fails for an infinite size: with size `(+inf, 1)`, which
satisfies `w, h ≥ 0`, and the corner pivot, the vertex at `(-w/2, -h/2, 0) =
(-inf, -0.5, 0)` of a 2 x 2 grid is sent to `(NaN, 0, 0)`, not to `(0, 0, 0)`. -/
theorem C6_counterexample_infinite_size :
    F32.le F32.zero (F32.inf false) = true ∧ F32.le F32.zero F32.one = true ∧
      F32.neg (F32.div (F32.inf false) F32.two) = F32.inf true ∧
      F32.neg (F32.div F32.one F32.two) = F32.neg F32.half ∧
      (node_geo_exec
        ⟨fun _ _ _ _ _ =>
          ⟨[⟨F32.inf true, F32.neg F32.half, F32.zero⟩, ⟨F32.inf true, F32.half, F32.zero⟩,
            ⟨F32.inf false, F32.neg F32.half, F32.zero⟩,
            ⟨F32.inf false, F32.half, F32.zero⟩], 0⟩, none⟩
        (GeoNodeExecParams.start ⟨GEO_NODE_GRID_PIVOT_CORNER_FRONT_LEFT⟩
          (F32.inf false) F32.one 2 2)).out_mesh =
        .geometry ⟨[⟨F32.nan, F32.zero, F32.zero⟩, ⟨F32.nan, F32.one, F32.zero⟩,
          ⟨F32.inf false, F32.zero, F32.zero⟩, ⟨F32.inf false, F32.one, F32.zero⟩], 1⟩ ∧
      F32.nan ≠ F32.zero := by
  refine ⟨by decide, by decide, by decide, by decide, ?_, by decide⟩
  rw [node_geo_exec_normal _ _ _ _ _ _ (by decide) (by decide)]
  decide

/-- C6 (amended to finite sizes): with pivot = front-left corner and a finite
size `(w, h)`, `w, h ≥ 0`, the translation pass of `node_geo_exec` sends every
finite vertex whose X, Y lie in `[-w/2, w/2] x [-h/2, h/2]` to a finite vertex
whose X, Y lie in `[0, w] x [0, h]`, Z unchanged, and a coordinate equal to
`-w/2` (resp. `-h/2`) goes to zero; bounds are on exact values. -/
theorem C6_corner_maps_rectangle (host : Host) (w h : F32) (verts_x verts_y : Int) (i : Nat)
    (p : float3) (hvx : 1 ≤ verts_x) (hvy : 1 ≤ verts_y)
    (hw : w.isFinite = true) (hh : h.isFinite = true)
    (hw0 : 0 ≤ F32.toRat w) (hh0 : 0 ≤ F32.toRat h)
    (hp : (host.create_grid_mesh verts_x verts_y w h
      host.uv_map_id_if_needed).vert_positions[i]? = some p)
    (hpx : p.x.isFinite = true) (hpy : p.y.isFinite = true)
    (hx1 : -(F32.toRat w) / 2 ≤ F32.toRat p.x) (hx2 : F32.toRat p.x ≤ F32.toRat w / 2)
    (hy1 : -(F32.toRat h) / 2 ≤ F32.toRat p.y) (hy2 : F32.toRat p.y ≤ F32.toRat h / 2) :
    ∃ (mesh : Mesh) (q : float3),
      (node_geo_exec host
        (GeoNodeExecParams.start ⟨GEO_NODE_GRID_PIVOT_CORNER_FRONT_LEFT⟩ w h
          verts_x verts_y)).out_mesh = .geometry mesh ∧
      mesh.vert_positions[i]? = some q ∧ q.z = p.z ∧
      q.x.isFinite = true ∧ q.y.isFinite = true ∧
      0 ≤ F32.toRat q.x ∧ F32.toRat q.x ≤ F32.toRat w ∧
      0 ≤ F32.toRat q.y ∧ F32.toRat q.y ≤ F32.toRat h ∧
      (F32.toRat p.x = -(F32.toRat w) / 2 → F32.toRat q.x = 0) ∧
      (F32.toRat p.y = -(F32.toRat h) / 2 → F32.toRat q.y = 0) := by
  have hw0s := (F32.toRat_nonneg_iff w).1 hw0
  have hh0s := (F32.toRat_nonneg_iff h).1 hh0
  obtain ⟨fx, ax, bx⟩ := F32.sub_corner_range w p.x hw hpx hw0s
    ((F32.neg_half_le_toRat_iff w p.x).1 hx1) ((F32.toRat_le_half_iff w p.x).1 hx2)
  obtain ⟨fy, ay, b_y⟩ := F32.sub_corner_range h p.y hh hpy hh0s
    ((F32.neg_half_le_toRat_iff h p.y).1 hy1) ((F32.toRat_le_half_iff h p.y).1 hy2)
  refine ⟨_, ⟨F32.sub p.x (F32.neg (F32.mul w F32.half)),
      F32.sub p.y (F32.neg (F32.mul h F32.half)), p.z⟩,
    by rw [node_geo_exec_normal host _ w h verts_x verts_y hvx hvy], ?_, rfl, fx, fy,
    (F32.toRat_nonneg_iff _).2 ax, (F32.toRat_le_iff _ _).2 bx,
    (F32.toRat_nonneg_iff _).2 ay, (F32.toRat_le_iff _ _).2 b_y, ?_, ?_⟩
  · rw [ensure_default_slot_positions, apply_pivot_offset_getElem?, hp,
      calculate_pivot_offset_corner]
    rfl
  · intro hc
    exact (F32.toRat_eq_zero_iff _).2
      (F32.sub_corner_zero w p.x hw hpx hw0s ((F32.toRat_eq_neg_half_iff w p.x).1 hc)).2
  · intro hc
    exact (F32.toRat_eq_zero_iff _).2
      (F32.sub_corner_zero h p.y hh hpy hh0s ((F32.toRat_eq_neg_half_iff h p.y).1 hc)).2

theorem C6_corner_maps_rectangle_witness :
    ((1 : Int) ≤ 2 ∧ (1 : Int) ≤ 2 ∧ F32.two.isFinite = true ∧ F32.four.isFinite = true ∧
      0 ≤ F32.toRat F32.two ∧ 0 ≤ F32.toRat F32.four ∧
      ([⟨F32.neg F32.one, F32.neg F32.two, F32.zero⟩,
        ⟨F32.neg F32.one, F32.two, F32.zero⟩, ⟨F32.one, F32.neg F32.two, F32.zero⟩,
        ⟨F32.one, F32.two, F32.zero⟩] : List float3)[0]? =
        some ⟨F32.neg F32.one, F32.neg F32.two, F32.zero⟩ ∧
      (F32.neg F32.one).isFinite = true ∧ (F32.neg F32.two).isFinite = true ∧
      -(F32.toRat F32.two) / 2 ≤ F32.toRat (F32.neg F32.one) ∧
      F32.toRat (F32.neg F32.one) ≤ F32.toRat F32.two / 2 ∧
      -(F32.toRat F32.four) / 2 ≤ F32.toRat (F32.neg F32.two) ∧
      F32.toRat (F32.neg F32.two) ≤ F32.toRat F32.four / 2) ∧
    ∃ (mesh : Mesh) (q : float3),
      (node_geo_exec
        ⟨fun _ _ _ _ _ => ⟨[⟨F32.neg F32.one, F32.neg F32.two, F32.zero⟩,
          ⟨F32.neg F32.one, F32.two, F32.zero⟩, ⟨F32.one, F32.neg F32.two, F32.zero⟩,
          ⟨F32.one, F32.two, F32.zero⟩], 0⟩, none⟩
        (GeoNodeExecParams.start ⟨GEO_NODE_GRID_PIVOT_CORNER_FRONT_LEFT⟩ F32.two F32.four
          2 2)).out_mesh = .geometry mesh ∧
      mesh.vert_positions[0]? = some q ∧ q.z = F32.zero ∧
      q.x.isFinite = true ∧ q.y.isFinite = true ∧
      0 ≤ F32.toRat q.x ∧ F32.toRat q.x ≤ F32.toRat F32.two ∧
      0 ≤ F32.toRat q.y ∧ F32.toRat q.y ≤ F32.toRat F32.four ∧
      (F32.toRat (F32.neg F32.one) = -(F32.toRat F32.two) / 2 → F32.toRat q.x = 0) ∧
      (F32.toRat (F32.neg F32.two) = -(F32.toRat F32.four) / 2 → F32.toRat q.y = 0) :=
  ⟨⟨by decide, by decide, rfl, rfl, (F32.toRat_nonneg_iff _).2 (by decide),
      (F32.toRat_nonneg_iff _).2 (by decide), rfl, rfl, rfl,
      (F32.neg_half_le_toRat_iff _ _).2 (by decide),
      (F32.toRat_le_half_iff _ _).2 (by decide),
      (F32.neg_half_le_toRat_iff _ _).2 (by decide),
      (F32.toRat_le_half_iff _ _).2 (by decide)⟩,
    C6_corner_maps_rectangle
      ⟨fun _ _ _ _ _ => ⟨[⟨F32.neg F32.one, F32.neg F32.two, F32.zero⟩,
        ⟨F32.neg F32.one, F32.two, F32.zero⟩, ⟨F32.one, F32.neg F32.two, F32.zero⟩,
        ⟨F32.one, F32.two, F32.zero⟩], 0⟩, none⟩
      F32.two F32.four 2 2 0 ⟨F32.neg F32.one, F32.neg F32.two, F32.zero⟩
      (by decide) (by decide) rfl rfl ((F32.toRat_nonneg_iff _).2 (by decide))
      ((F32.toRat_nonneg_iff _).2 (by decide)) rfl rfl rfl
      ((F32.neg_half_le_toRat_iff _ _).2 (by decide))
      ((F32.toRat_le_half_iff _ _).2 (by decide))
      ((F32.neg_half_le_toRat_iff _ _).2 (by decide))
      ((F32.toRat_le_half_iff _ _).2 (by decide))⟩

/-- C10, as stated, fails by rounding: for the 4 x 1 grid of size `(1, 1)`
with X positions `-0.5, -0.16666667, 0.16666667, 0.5` and the corner pivot,
the published X positions are `0, 0.3333333, 0.6666667, 1`, and the difference
between vertices 2 and 1 is not the difference before the pass, neither as
`float` subtraction nor as exact values. -/
theorem C10_counterexample_rounding :
    (node_geo_exec
        ⟨fun _ _ _ _ _ =>
          ⟨[⟨F32.fin true ⟨0x3F000000, by decide⟩, F32.zero, F32.zero⟩,
            ⟨F32.fin true ⟨0x3E2AAAAB, by decide⟩, F32.zero, F32.zero⟩,
            ⟨F32.fin false ⟨0x3E2AAAAB, by decide⟩, F32.zero, F32.zero⟩,
            ⟨F32.fin false ⟨0x3F000000, by decide⟩, F32.zero, F32.zero⟩], 0⟩, none⟩
        (GeoNodeExecParams.start ⟨GEO_NODE_GRID_PIVOT_CORNER_FRONT_LEFT⟩
          F32.one F32.one 4 1)).out_mesh =
        .geometry ⟨[⟨F32.zero, F32.half, F32.zero⟩,
          ⟨F32.fin false ⟨0x3EAAAAAA, by decide⟩, F32.half, F32.zero⟩,
          ⟨F32.fin false ⟨0x3F2AAAAB, by decide⟩, F32.half, F32.zero⟩,
          ⟨F32.one, F32.half, F32.zero⟩], 1⟩ ∧
      F32.sub (F32.fin false ⟨0x3F2AAAAB, by decide⟩) (F32.fin false ⟨0x3EAAAAAA, by decide⟩) ≠
        F32.sub (F32.fin false ⟨0x3E2AAAAB, by decide⟩) (F32.fin true ⟨0x3E2AAAAB, by decide⟩) ∧
      F32.toRat (F32.fin false ⟨0x3F2AAAAB, by decide⟩) -
          F32.toRat (F32.fin false ⟨0x3EAAAAAA, by decide⟩) ≠
        F32.toRat (F32.fin false ⟨0x3E2AAAAB, by decide⟩) -
          F32.toRat (F32.fin true ⟨0x3E2AAAAB, by decide⟩) := by
  refine ⟨?_, by decide, fun h => absurd ((F32.toRat_sub_eq_iff _ _ _ _).1 h) (by decide)⟩
  rw [node_geo_exec_normal _ _ _ _ _ _ (by decide) (by decide)]
  decide

/-- C10 (amended): the translation pass keeps the number and order of the
vertices and subtracts the same offset from every vertex, X and Y in `float`
arithmetic, Z untouched; it is the identity unless the pivot is the corner; and
for two vertices whose translated X and Y are finite, the exact difference of
the output positions is within `(|x_i - offset.x| + |x_j - offset.x|) / 2^24`
of the exact difference before the pass (same for Y), Z unchanged. -/
theorem C10_translation_pass (host : Host) (storage : NodeGeometryMeshGrid)
    (size_x size_y : F32) (verts_x verts_y : Int) (h1 : 1 ≤ verts_x) (h2 : 1 ≤ verts_y) :
    ∃ mesh : Mesh,
      (node_geo_exec host
        (GeoNodeExecParams.start storage size_x size_y verts_x verts_y)).out_mesh =
        .geometry mesh ∧
      mesh.vert_positions.length =
        (host.create_grid_mesh verts_x verts_y size_x size_y
          host.uv_map_id_if_needed).vert_positions.length ∧
      (∀ i : Nat, mesh.vert_positions[i]? =
        (host.create_grid_mesh verts_x verts_y size_x size_y
          host.uv_map_id_if_needed).vert_positions[i]?.map fun p =>
            ⟨F32.sub p.x (calculate_pivot_offset storage.pivot ⟨size_x, size_y⟩).x,
             F32.sub p.y (calculate_pivot_offset storage.pivot ⟨size_x, size_y⟩).y, p.z⟩) ∧
      (storage.pivot ≠ GEO_NODE_GRID_PIVOT_CORNER_FRONT_LEFT →
        mesh.vert_positions =
          (host.create_grid_mesh verts_x verts_y size_x size_y
            host.uv_map_id_if_needed).vert_positions) ∧
      (∀ (i j : Nat) (p q : float3),
        (host.create_grid_mesh verts_x verts_y size_x size_y
          host.uv_map_id_if_needed).vert_positions[i]? = some p →
        (host.create_grid_mesh verts_x verts_y size_x size_y
          host.uv_map_id_if_needed).vert_positions[j]? = some q →
        (F32.sub p.x (calculate_pivot_offset storage.pivot ⟨size_x, size_y⟩).x).isFinite =
          true →
        (F32.sub q.x (calculate_pivot_offset storage.pivot ⟨size_x, size_y⟩).x).isFinite =
          true →
        (F32.sub p.y (calculate_pivot_offset storage.pivot ⟨size_x, size_y⟩).y).isFinite =
          true →
        (F32.sub q.y (calculate_pivot_offset storage.pivot ⟨size_x, size_y⟩).y).isFinite =
          true →
        ∃ p' q' : float3, mesh.vert_positions[i]? = some p' ∧
          mesh.vert_positions[j]? = some q' ∧ p'.z = p.z ∧ q'.z = q.z ∧
          |(F32.toRat p'.x - F32.toRat q'.x) - (F32.toRat p.x - F32.toRat q.x)| ≤
            (|F32.toRat p.x -
                F32.toRat (calculate_pivot_offset storage.pivot ⟨size_x, size_y⟩).x| +
              |F32.toRat q.x -
                F32.toRat (calculate_pivot_offset storage.pivot ⟨size_x, size_y⟩).x|) /
              2 ^ 24 ∧
          |(F32.toRat p'.y - F32.toRat q'.y) - (F32.toRat p.y - F32.toRat q.y)| ≤
            (|F32.toRat p.y -
                F32.toRat (calculate_pivot_offset storage.pivot ⟨size_x, size_y⟩).y| +
              |F32.toRat q.y -
                F32.toRat (calculate_pivot_offset storage.pivot ⟨size_x, size_y⟩).y|) /
              2 ^ 24) := by
  refine ⟨_, by rw [node_geo_exec_normal host storage size_x size_y verts_x verts_y h1 h2],
    ?_, ?_, ?_, ?_⟩
  · rw [ensure_default_slot_positions, apply_pivot_offset_length]
  · intro i
    rw [ensure_default_slot_positions, apply_pivot_offset_getElem?]
  · intro hp
    rw [ensure_default_slot_positions, calculate_pivot_offset_not_corner _ _ hp,
      apply_pivot_offset_zero]
  · intro i j p q hp hq fpx fqx fpy fqy
    refine ⟨⟨F32.sub p.x (calculate_pivot_offset storage.pivot ⟨size_x, size_y⟩).x,
        F32.sub p.y (calculate_pivot_offset storage.pivot ⟨size_x, size_y⟩).y, p.z⟩,
      ⟨F32.sub q.x (calculate_pivot_offset storage.pivot ⟨size_x, size_y⟩).x,
        F32.sub q.y (calculate_pivot_offset storage.pivot ⟨size_x, size_y⟩).y, q.z⟩,
      ?_, ?_, rfl, rfl, F32.toRat_sub_sub_error _ _ _ fpx fqx,
      F32.toRat_sub_sub_error _ _ _ fpy fqy⟩
    · rw [ensure_default_slot_positions, apply_pivot_offset_getElem?, hp]; rfl
    · rw [ensure_default_slot_positions, apply_pivot_offset_getElem?, hq]; rfl

theorem C10_translation_pass_witness :
    ((1 : Int) ≤ 4 ∧ (1 : Int) ≤ 1 ∧
      (F32.sub (⟨F32.fin true ⟨0x3E2AAAAB, by decide⟩, F32.zero, F32.zero⟩ : float3).x (calculate_pivot_offset GEO_NODE_GRID_PIVOT_CORNER_FRONT_LEFT ⟨F32.one, F32.one⟩).x).isFinite = true ∧ (F32.sub (⟨F32.fin false ⟨0x3E2AAAAB, by decide⟩, F32.zero, F32.zero⟩ : float3).x (calculate_pivot_offset GEO_NODE_GRID_PIVOT_CORNER_FRONT_LEFT ⟨F32.one, F32.one⟩).x).isFinite = true ∧
      (F32.sub (⟨F32.fin true ⟨0x3E2AAAAB, by decide⟩, F32.zero, F32.zero⟩ : float3).y (calculate_pivot_offset GEO_NODE_GRID_PIVOT_CORNER_FRONT_LEFT ⟨F32.one, F32.one⟩).y).isFinite = true ∧ (F32.sub (⟨F32.fin false ⟨0x3E2AAAAB, by decide⟩, F32.zero, F32.zero⟩ : float3).y (calculate_pivot_offset GEO_NODE_GRID_PIVOT_CORNER_FRONT_LEFT ⟨F32.one, F32.one⟩).y).isFinite = true) ∧
    ∃ (mesh : Mesh) (p' q' : float3),
      (node_geo_exec
        ⟨fun _ _ _ _ _ =>
          ⟨[⟨F32.fin true ⟨0x3F000000, by decide⟩, F32.zero, F32.zero⟩,
            ⟨F32.fin true ⟨0x3E2AAAAB, by decide⟩, F32.zero, F32.zero⟩,
            ⟨F32.fin false ⟨0x3E2AAAAB, by decide⟩, F32.zero, F32.zero⟩,
            ⟨F32.fin false ⟨0x3F000000, by decide⟩, F32.zero, F32.zero⟩], 0⟩, none⟩
        (GeoNodeExecParams.start ⟨GEO_NODE_GRID_PIVOT_CORNER_FRONT_LEFT⟩ F32.one F32.one
          4 1)).out_mesh = .geometry mesh ∧
      mesh.vert_positions.length = 4 ∧
      mesh.vert_positions[1]? = some p' ∧ mesh.vert_positions[2]? = some q' ∧
      p'.z = F32.zero ∧ q'.z = F32.zero ∧
      |(F32.toRat p'.x - F32.toRat q'.x) - (F32.toRat (⟨F32.fin true ⟨0x3E2AAAAB, by decide⟩, F32.zero, F32.zero⟩ : float3).x - F32.toRat (⟨F32.fin false ⟨0x3E2AAAAB, by decide⟩, F32.zero, F32.zero⟩ : float3).x)| ≤
        (|F32.toRat (⟨F32.fin true ⟨0x3E2AAAAB, by decide⟩, F32.zero, F32.zero⟩ : float3).x - F32.toRat (calculate_pivot_offset GEO_NODE_GRID_PIVOT_CORNER_FRONT_LEFT ⟨F32.one, F32.one⟩).x| + |F32.toRat (⟨F32.fin false ⟨0x3E2AAAAB, by decide⟩, F32.zero, F32.zero⟩ : float3).x - F32.toRat (calculate_pivot_offset GEO_NODE_GRID_PIVOT_CORNER_FRONT_LEFT ⟨F32.one, F32.one⟩).x|) / 2 ^ 24 ∧
      |(F32.toRat p'.y - F32.toRat q'.y) - (F32.toRat (⟨F32.fin true ⟨0x3E2AAAAB, by decide⟩, F32.zero, F32.zero⟩ : float3).y - F32.toRat (⟨F32.fin false ⟨0x3E2AAAAB, by decide⟩, F32.zero, F32.zero⟩ : float3).y)| ≤
        (|F32.toRat (⟨F32.fin true ⟨0x3E2AAAAB, by decide⟩, F32.zero, F32.zero⟩ : float3).y - F32.toRat (calculate_pivot_offset GEO_NODE_GRID_PIVOT_CORNER_FRONT_LEFT ⟨F32.one, F32.one⟩).y| + |F32.toRat (⟨F32.fin false ⟨0x3E2AAAAB, by decide⟩, F32.zero, F32.zero⟩ : float3).y - F32.toRat (calculate_pivot_offset GEO_NODE_GRID_PIVOT_CORNER_FRONT_LEFT ⟨F32.one, F32.one⟩).y|) / 2 ^ 24 := by
  refine ⟨⟨by decide, by decide, by decide, by decide, by decide, by decide⟩, ?_⟩
  obtain ⟨mesh, hout, hlen, _, _, hdiff⟩ := C10_translation_pass
    ⟨fun _ _ _ _ _ =>
          ⟨[⟨F32.fin true ⟨0x3F000000, by decide⟩, F32.zero, F32.zero⟩,
            ⟨F32.fin true ⟨0x3E2AAAAB, by decide⟩, F32.zero, F32.zero⟩,
            ⟨F32.fin false ⟨0x3E2AAAAB, by decide⟩, F32.zero, F32.zero⟩,
            ⟨F32.fin false ⟨0x3F000000, by decide⟩, F32.zero, F32.zero⟩], 0⟩, none⟩
    ⟨GEO_NODE_GRID_PIVOT_CORNER_FRONT_LEFT⟩ F32.one F32.one 4 1 (by decide) (by decide)
  obtain ⟨p', q', hp, hq, hpz, hqz, hx, hy⟩ := hdiff 1 2 (⟨F32.fin true ⟨0x3E2AAAAB, by decide⟩, F32.zero, F32.zero⟩ : float3) (⟨F32.fin false ⟨0x3E2AAAAB, by decide⟩, F32.zero, F32.zero⟩ : float3) rfl rfl
    (by decide) (by decide) (by decide) (by decide)
  exact ⟨mesh, p', q', hout, hlen, hp, hq, hpz, hqz, hx, hy⟩

end node_geo_mesh_primitive_grid_cc
